import Mathlib

/-!
Verification development for the Nexus run core.

The definitions below are a shallow embedding of the Rust sources of the
repository (event log writer and reader, response parsing, SSE transport
framing, retry strategy, settings validation, executor adapter).  JSON
serialization and deserialization, performed in the source through the
serde_json crate, is embedded as an executable renderer and parser over a
JSON value type; JSON numbers are modelled as the non-negative integers
the program actually emits, and floating point numbers are out of scope.
-/

set_option maxHeartbeats 1000000

namespace NexusModel

/-! ### JSON values

Model of serde_json::Value restricted to what the program produces and
consumes (no floating point, no negative numbers).  Objects are ordered
association lists; serde_json::Map insertion semantics (replace the value
of an existing key) are mirrored by objInsert. -/

mutual

inductive Json where
  | null : Json
  | bool (b : Bool) : Json
  | num (n : Nat) : Json
  | str (s : String) : Json
  | arr (xs : JsonArr) : Json
  | obj (ms : JsonObj) : Json
deriving DecidableEq

inductive JsonArr where
  | nil : JsonArr
  | cons (hd : Json) (tl : JsonArr) : JsonArr
deriving DecidableEq

inductive JsonObj where
  | nil : JsonObj
  | cons (key : String) (val : Json) (tl : JsonObj) : JsonObj
deriving DecidableEq

end

def lbrace : Char := Char.ofNat 123

def rbrace : Char := Char.ofNat 125

/-- Value lookup on a JSON object, as serde_json::Value::get on maps:
the first binding of the key (maps never hold duplicates). -/
def objGet (key : String) : JsonObj → Option Json
  | .nil => none
  | .cons k v tl => if k = key then some v else objGet key tl

/-- Map insertion, as serde_json::Map::insert: replace the first binding
of an existing key, appending a fresh key at the end. -/
def objInsert (key : String) (v : Json) : JsonObj → JsonObj
  | .nil => .cons key v .nil
  | .cons k w tl => if k = key then .cons k v tl else .cons k w (objInsert key v tl)

/-- Value::as_u64 restricted to the modelled numbers. -/
def asU64 : Json → Option Nat
  | .num n => some n
  | _ => none

/-! ### Rendering (serde_json compact output)

serde_json writes objects and arrays without whitespace, strings with the
escapes below (quote, backslash, \b \t \n \f \r for those controls and
\u00XX for the remaining chars below 0x20), and u64 numbers in decimal. -/

def digitChar (d : Nat) : Char := Char.ofNat (48 + d)

def hexDigitChar (d : Nat) : Char :=
  if d < 10 then Char.ofNat (48 + d) else Char.ofNat (87 + d)

/-- Decimal digits of a number, most significant first (fueled so that the
kernel can evaluate it). -/
def natDigitsAux : Nat → Nat → List Char → List Char
  | 0, _, acc => acc
  | fuel + 1, n, acc =>
      if n < 10 then digitChar n :: acc
      else natDigitsAux fuel (n / 10) (digitChar (n % 10) :: acc)

def renderNat (n : Nat) : List Char := natDigitsAux (n + 1) n []

/-- serde_json escaping of one string character. -/
def escChar (c : Char) : List Char :=
  if c = '"' then ['\\', '"']
  else if c = '\\' then ['\\', '\\']
  else if c.toNat = 8 then ['\\', 'b']
  else if c.toNat = 9 then ['\\', 't']
  else if c.toNat = 10 then ['\\', 'n']
  else if c.toNat = 12 then ['\\', 'f']
  else if c.toNat = 13 then ['\\', 'r']
  else if c.toNat < 32 then
    ['\\', 'u', '0', '0', hexDigitChar (c.toNat / 16), hexDigitChar (c.toNat % 16)]
  else [c]

def renderStringBody : List Char → List Char
  | [] => []
  | c :: rest => escChar c ++ renderStringBody rest

def renderString (s : String) : List Char :=
  '"' :: renderStringBody s.data ++ ['"']

mutual

def renderJson : Json → List Char
  | .null => 'n' :: ['u', 'l', 'l']
  | .bool true => 't' :: ['r', 'u', 'e']
  | .bool false => 'f' :: ['a', 'l', 's', 'e']
  | .num n => renderNat n
  | .str s => renderString s
  | .arr xs => '[' :: renderArrBody xs ++ [']']
  | .obj ms => lbrace :: renderObjBody ms ++ [rbrace]

def renderArrBody : JsonArr → List Char
  | .nil => []
  | .cons v .nil => renderJson v
  | .cons v (.cons w tl) => renderJson v ++ ',' :: renderArrBody (.cons w tl)

def renderObjBody : JsonObj → List Char
  | .nil => []
  | .cons k v .nil => renderString k ++ ':' :: renderJson v
  | .cons k v (.cons k2 w tl) =>
      renderString k ++ ':' :: renderJson v ++ ',' :: renderObjBody (.cons k2 w tl)

end

def renderJsonStr (v : Json) : String := String.mk (renderJson v)

/-! ### Parsing (serde_json input side, restricted as noted above) -/

def isWsChar (c : Char) : Bool :=
  c = ' ' || c = '\t' || c = '\n' || c = '\r'

def skipWs : List Char → List Char
  | [] => []
  | c :: rest => if isWsChar c then skipWs rest else c :: rest

def isDigitChar (c : Char) : Bool := 48 ≤ c.toNat && c.toNat ≤ 57

/-- Greedy decimal digit run, accumulating the value. -/
def parseDigits (acc : Nat) : List Char → Nat × List Char
  | [] => (acc, [])
  | c :: rest =>
      if isDigitChar c then parseDigits (acc * 10 + (c.toNat - 48)) rest
      else (acc, c :: rest)

def hexVal (c : Char) : Option Nat :=
  if 48 ≤ c.toNat ∧ c.toNat ≤ 57 then some (c.toNat - 48)
  else if 97 ≤ c.toNat ∧ c.toNat ≤ 102 then some (c.toNat - 87)
  else if 65 ≤ c.toNat ∧ c.toNat ≤ 70 then some (c.toNat - 55)
  else none

/-- JSON string body after the opening quote: returns the decoded
characters and the input after the closing quote.  Mirrors serde_json:
raw control characters are rejected, the eight short escapes and \uXXXX
are understood, and lone surrogate escapes are rejected. -/
def parseStringBody : List Char → Option (List Char × List Char)
  | [] => none
  | '\\' :: 'u' :: h1 :: h2 :: h3 :: h4 :: rest => do
      let d1 ← hexVal h1
      let d2 ← hexVal h2
      let d3 ← hexVal h3
      let d4 ← hexVal h4
      let n := ((d1 * 16 + d2) * 16 + d3) * 16 + d4
      if 0xD800 ≤ n ∧ n < 0xE000 then none
      else do
        let (s, r) ← parseStringBody rest
        pure (Char.ofNat n :: s, r)
  | '\\' :: e :: rest => do
      let c ←
        if e = '"' then some '"'
        else if e = '\\' then some '\\'
        else if e = '/' then some '/'
        else if e = 'b' then some (Char.ofNat 8)
        else if e = 't' then some '\t'
        else if e = 'n' then some '\n'
        else if e = 'f' then some (Char.ofNat 12)
        else if e = 'r' then some (Char.ofNat 13)
        else none
      let (s, r) ← parseStringBody rest
      pure (c :: s, r)
  | c :: rest =>
      if c = '"' then some ([], rest)
      else if c.toNat < 32 then none
      else do
        let (s, r) ← parseStringBody rest
        pure (c :: s, r)

def stripChars : List Char → List Char → Option (List Char)
  | [], cs => some cs
  | _ :: _, [] => none
  | p :: ps, c :: cs => if c = p then stripChars ps cs else none

mutual

/-- JSON value at the head of the input (leading whitespace allowed);
returns the value and the rest of the input. -/
def parseVal : Nat → List Char → Option (Json × List Char)
  | 0, _ => none
  | fuel + 1, cs =>
      match skipWs cs with
      | [] => none
      | c :: rest =>
          if c = 'n' then
            (stripChars ['u', 'l', 'l'] rest).map fun r => (.null, r)
          else if c = 't' then
            (stripChars ['r', 'u', 'e'] rest).map fun r => (.bool true, r)
          else if c = 'f' then
            (stripChars ['a', 'l', 's', 'e'] rest).map fun r => (.bool false, r)
          else if c = '"' then
            (parseStringBody rest).map fun (s, r) => (.str (String.mk s), r)
          else if c = '[' then
            (parseArrItems fuel (skipWs rest)).map fun (xs, r) => (.arr xs, r)
          else if c = lbrace then
            (parseObjItems fuel (skipWs rest)).map fun (ms, r) => (.obj ms, r)
          else if isDigitChar c then
            let (n, r) := parseDigits (c.toNat - 48) rest
            some (.num n, r)
          else none

/-- Array items after the opening bracket (already whitespace-skipped). -/
def parseArrItems : Nat → List Char → Option (JsonArr × List Char)
  | 0, _ => none
  | _ + 1, [] => none
  | fuel + 1, c :: rest =>
      if c = ']' then some (.nil, rest)
      else do
        let (v, r) ← parseVal fuel (c :: rest)
        match skipWs r with
        | [] => none
        | c2 :: rest2 =>
            if c2 = ',' then do
              let (tl, r2) ← parseArrItems fuel (skipWs rest2)
              match tl with
              | .nil => none
              | .cons w tl2 => pure (.cons v (.cons w tl2), r2)
            else if c2 = ']' then pure (.cons v .nil, rest2)
            else none

/-- Object members after the opening brace (already whitespace-skipped). -/
def parseObjItems : Nat → List Char → Option (JsonObj × List Char)
  | 0, _ => none
  | _ + 1, [] => none
  | fuel + 1, c :: rest =>
      if c = rbrace then some (.nil, rest)
      else if c = '"' then do
        let (k, r) ← parseStringBody rest
        match skipWs r with
        | [] => none
        | c2 :: r2 =>
            if c2 = ':' then do
              let (v, r3) ← parseVal fuel (skipWs r2)
              match skipWs r3 with
              | [] => none
              | c3 :: r4 =>
                  if c3 = ',' then do
                    let (tl, r5) ← parseObjItems fuel (skipWs r4)
                    match tl with
                    | .nil => none
                    | .cons k2 w tl2 => pure (.cons (String.mk k) v (.cons k2 w tl2), r5)
                  else if c3 = rbrace then pure (.cons (String.mk k) v .nil, r4)
                  else none
            else none
      else none

end

/-- serde_json::from_str on Value: the whole input must be one JSON value
surrounded by nothing but whitespace. -/
def jsonParse (s : String) : Option Json := do
  let (v, rest) ← parseVal (s.data.length + 1) s.data
  if (skipWs rest).isEmpty then some v else none

example : jsonParse "\x7b\"event_seq\":1\x7d" =
    some (.obj (.cons "event_seq" (.num 1) .nil)) := by decide

example : jsonParse "not json" = none := by decide

example : jsonParse (renderJsonStr (.obj (.cons "a" (.str "x\ny") .nil))) =
    some (.obj (.cons "a" (.str "x\ny") .nil)) := by decide

/-! ### Roundtrip: the parser inverts the renderer -/

theorem charOfNat_toNat (n : Nat) (h : n < 55296) : (Char.ofNat n).toNat = n := by
  have hv : n.isValidChar := Or.inl h
  simp only [Char.ofNat, dif_pos hv]
  simp [Char.ofNatAux, Char.toNat, UInt32.toNat, BitVec.toNat_ofNatLt]

theorem digitChar_toNat (d : Nat) (h : d < 10) : (digitChar d).toNat = 48 + d := by
  rw [digitChar, charOfNat_toNat _ (by omega)]

theorem digitChar_isDigit (d : Nat) (h : d < 10) : isDigitChar (digitChar d) = true := by
  simp [isDigitChar, digitChar_toNat d h]
  omega

def headNotDigit : List Char → Bool
  | [] => true
  | c :: _ => !isDigitChar c

theorem natDigitsAux_eq : ∀ n fuel tail, n < 10 ^ fuel → 0 < fuel →
    natDigitsAux fuel n tail = renderNat n ++ tail := by
  intro n
  induction n using Nat.strong_induction_on with
  | _ n ih =>
    intro fuel tail hlt hpos
    obtain ⟨f, rfl⟩ : ∃ f, fuel = f + 1 := ⟨fuel - 1, by omega⟩
    by_cases h10 : n < 10
    · simp [natDigitsAux, renderNat, h10]
    · have hf1 : 1 ≤ f := by
        by_contra hf
        have : f = 0 := by omega
        subst this
        simp at hlt
        omega
      have hdiv : n / 10 < 10 ^ f := by
        have : n < 10 ^ f * 10 := by
          have := hlt
          rw [pow_succ] at this
          omega
        omega
      have hlt' : n / 10 < n := Nat.div_lt_self (by omega) (by omega)
      have hstep : natDigitsAux (f + 1) n tail
          = natDigitsAux f (n / 10) (digitChar (n % 10) :: tail) := by
        simp [natDigitsAux, h10]
      rw [hstep, ih (n / 10) hlt' f _ hdiv (by omega)]
      have hrn : renderNat n = renderNat (n / 10) ++ [digitChar (n % 10)] := by
        have h1 : renderNat n = natDigitsAux n (n / 10) [digitChar (n % 10)] := by
          rw [renderNat]
          simp only [natDigitsAux]
          rw [if_neg h10]
        rw [h1, ih (n / 10) hlt' n _ (lt_of_le_of_lt (Nat.div_le_self n 10)
          (Nat.lt_pow_self (by omega) n)) (by omega)]
      rw [hrn]
      simp

theorem renderNat_lt (n : Nat) (h : n < 10) : renderNat n = [digitChar n] := by
  simp [renderNat, natDigitsAux, h]

theorem renderNat_ge (n : Nat) (h : 10 ≤ n) :
    renderNat n = renderNat (n / 10) ++ [digitChar (n % 10)] := by
  have h1 : renderNat n = natDigitsAux n (n / 10) [digitChar (n % 10)] := by
    rw [renderNat]
    simp only [natDigitsAux]
    rw [if_neg (by omega : ¬ n < 10)]
  rw [h1, natDigitsAux_eq (n / 10) n _ (lt_of_le_of_lt (Nat.div_le_self n 10)
    (Nat.lt_pow_self (by omega) n)) (by omega)]

theorem renderNat_head : ∀ n : Nat, ∃ c cs, renderNat n = c :: cs ∧ isDigitChar c = true := by
  intro n
  induction n using Nat.strong_induction_on with
  | _ n ih =>
    by_cases h10 : n < 10
    · exact ⟨digitChar n, [], by rw [renderNat_lt n h10], digitChar_isDigit n h10⟩
    · obtain ⟨c, cs, hc, hd⟩ := ih (n / 10) (Nat.div_lt_self (by omega) (by omega))
      exact ⟨c, cs ++ [digitChar (n % 10)], by rw [renderNat_ge n (by omega), hc]; simp, hd⟩

theorem parseDigits_render (n : Nat) : ∀ a rest,
    parseDigits a (renderNat n ++ rest)
      = parseDigits (a * 10 ^ (renderNat n).length + n) rest := by
  induction n using Nat.strong_induction_on with
  | _ n ih =>
    intro a rest
    by_cases h10 : n < 10
    · rw [renderNat_lt n h10]
      simp [parseDigits, digitChar_isDigit n h10, digitChar_toNat n h10]
    · rw [renderNat_ge n (by omega)]
      have hlen : (renderNat (n / 10) ++ [digitChar (n % 10)]).length
          = (renderNat (n / 10)).length + 1 := by simp
      have hmod : n % 10 < 10 := Nat.mod_lt _ (by omega)
      calc parseDigits a ((renderNat (n / 10) ++ [digitChar (n % 10)]) ++ rest)
          = parseDigits a (renderNat (n / 10) ++ (digitChar (n % 10) :: rest)) := by
            simp
        _ = parseDigits (a * 10 ^ (renderNat (n / 10)).length + n / 10)
              (digitChar (n % 10) :: rest) :=
            ih (n / 10) (Nat.div_lt_self (by omega) (by omega)) _ _
        _ = parseDigits ((a * 10 ^ (renderNat (n / 10)).length + n / 10) * 10 + n % 10)
              rest := by
            simp [parseDigits, digitChar_isDigit _ hmod, digitChar_toNat _ hmod]
        _ = parseDigits (a * 10 ^ (renderNat (n / 10) ++ [digitChar (n % 10)]).length + n)
              rest := by
            rw [hlen, pow_succ]
            congr 1
            have := Nat.div_add_mod n 10
            ring_nf
            omega

theorem parseDigits_stop (a : Nat) (rest : List Char) (h : headNotDigit rest = true) :
    parseDigits a rest = (a, rest) := by
  cases rest with
  | nil => rfl
  | cons c cs =>
    simp [headNotDigit] at h
    simp [parseDigits, h]

theorem hexVal_hexDigitChar (d : Nat) (h : d < 16) : hexVal (hexDigitChar d) = some d := by
  interval_cases d <;> decide

theorem parseStringBody_esc (c : Char) (rest : List Char) :
    parseStringBody (escChar c ++ rest)
      = (parseStringBody rest).map (fun p => (c :: p.1, p.2)) := by
  by_cases h1 : c = '"'
  · subst h1
    cases h : parseStringBody rest <;> simp [escChar, parseStringBody, h]
  by_cases h2 : c = '\\'
  · subst h2
    cases h : parseStringBody rest <;> simp [escChar, parseStringBody, h]
  by_cases h3 : c.toNat = 8
  · have hc : c = Char.ofNat 8 := by rw [← h3, Char.ofNat_toNat]
    subst hc
    cases h : parseStringBody rest <;> simp [escChar, parseStringBody, h]
  by_cases h4 : c.toNat = 9
  · have hc : c = '\t' := by
      have hx : c = Char.ofNat 9 := by rw [← h4, Char.ofNat_toNat]
      rw [hx]
    subst hc
    cases h : parseStringBody rest <;> simp [escChar, parseStringBody, h]
  by_cases h5 : c.toNat = 10
  · have hc : c = '\n' := by
      have hx : c = Char.ofNat 10 := by rw [← h5, Char.ofNat_toNat]
      rw [hx]
    subst hc
    cases h : parseStringBody rest <;> simp [escChar, parseStringBody, h]
  by_cases h6 : c.toNat = 12
  · have hc : c = Char.ofNat 12 := by rw [← h6, Char.ofNat_toNat]
    subst hc
    cases h : parseStringBody rest <;> simp [escChar, parseStringBody, h]
  by_cases h7 : c.toNat = 13
  · have hc : c = Char.ofNat 13 := by rw [← h7, Char.ofNat_toNat]
    subst hc
    cases h : parseStringBody rest <;> simp [escChar, parseStringBody, h]
  by_cases h8 : c.toNat < 32
  · have hesc : escChar c
        = ['\\', 'u', '0', '0', hexDigitChar (c.toNat / 16), hexDigitChar (c.toNat % 16)] := by
      simp [escChar, h1, h2, h3, h4, h5, h6, h7, h8]
    rw [hesc]
    have hdiv : c.toNat / 16 < 16 := by omega
    have hmod : c.toNat % 16 < 16 := by omega
    have h0 : hexVal '0' = some 0 := by decide
    cases h : parseStringBody rest with
    | none =>
      simp [parseStringBody, h0, hexVal_hexDigitChar _ hdiv, hexVal_hexDigitChar _ hmod, h]
    | some p =>
      have hE : c.toNat / 16 * 16 + c.toNat % 16 = c.toNat := by omega
      simp [parseStringBody, h0, hexVal_hexDigitChar _ hdiv, hexVal_hexDigitChar _ hmod, h]
      constructor
      · omega
      · rw [hE, Char.ofNat_toNat]
  · have hesc : escChar c = [c] := by
      simp [escChar, h1, h2, h3, h4, h5, h6, h7, h8]
    rw [hesc, List.singleton_append]
    rw [parseStringBody.eq_def]
    split
    · simp_all
    · rename_i heq
      exfalso
      rw [List.cons.injEq] at heq
      exact h2 heq.1
    · rename_i heq
      exfalso
      rw [List.cons.injEq] at heq
      exact h2 heq.1
    · rename_i c2 rest2 heq
      rw [List.cons.injEq] at heq
      obtain ⟨rfl, rfl⟩ := heq
      rw [if_neg h1, if_neg h8]
      cases h : parseStringBody rest <;> simp [h]

theorem parseStringBody_render (s : List Char) (rest : List Char) :
    parseStringBody (renderStringBody s ++ '"' :: rest) = some (s, rest) := by
  induction s with
  | nil => simp [renderStringBody, parseStringBody]
  | cons c s ih =>
    rw [renderStringBody, List.append_assoc, parseStringBody_esc, ih]
    rfl

theorem char_eq_iff_toNat (c d : Char) : c = d ↔ c.toNat = d.toNat := by
  constructor
  · intro h
    rw [h]
  · intro h
    have h1 := Char.ofNat_toNat c
    have h2 := Char.ofNat_toNat d
    rw [← h1, ← h2, h]

theorem not_ws_of_digit (c : Char) (h : isDigitChar c = true) : isWsChar c = false := by
  simp only [isDigitChar, Bool.and_eq_true, decide_eq_true_eq] at h
  have h32 : ¬ c = ' ' := by
    rw [char_eq_iff_toNat, show (' ').toNat = 32 from rfl]
    omega
  have h9 : ¬ c = '\t' := by
    rw [char_eq_iff_toNat, show ('\t').toNat = 9 from rfl]
    omega
  have h10 : ¬ c = '\n' := by
    rw [char_eq_iff_toNat, show ('\n').toNat = 10 from rfl]
    omega
  have h13 : ¬ c = '\r' := by
    rw [char_eq_iff_toNat, show ('\r').toNat = 13 from rfl]
    omega
  simp [isWsChar, h32, h9, h10, h13]

theorem digit_ne (c d : Char) (h : isDigitChar c = true)
    (hd : d.toNat < 48 ∨ 57 < d.toNat) : ¬ c = d := by
  simp only [isDigitChar, Bool.and_eq_true, decide_eq_true_eq] at h
  rw [char_eq_iff_toNat]
  omega

theorem skipWs_not_ws {c : Char} (h : isWsChar c = false) (r : List Char) :
    skipWs (c :: r) = c :: r := by
  simp [skipWs, h]

mutual

def jsizeV : Json → Nat
  | .null => 1
  | .bool _ => 1
  | .num _ => 1
  | .str _ => 1
  | .arr xs => jsizeA xs + 1
  | .obj ms => jsizeO ms + 1

def jsizeA : JsonArr → Nat
  | .nil => 1
  | .cons v tl => max (jsizeV v) (jsizeA tl) + 1

def jsizeO : JsonObj → Nat
  | .nil => 1
  | .cons _ v tl => max (jsizeV v) (jsizeO tl) + 1

end

theorem string_mk_data (s : String) : String.mk s.data = s := rfl

theorem renderJson_head (v : Json) :
    ∃ c cs, renderJson v = c :: cs ∧ isWsChar c = false ∧ c ≠ ']' := by
  cases v with
  | null => exact ⟨'n', _, rfl, by decide, by decide⟩
  | bool b =>
    cases b with
    | true => exact ⟨'t', _, rfl, by decide, by decide⟩
    | false => exact ⟨'f', _, rfl, by decide, by decide⟩
  | num n =>
    obtain ⟨c, cs, hc, hd⟩ := renderNat_head n
    exact ⟨c, cs, hc, not_ws_of_digit c hd, digit_ne c ']' hd (by decide)⟩
  | str s => exact ⟨'"', _, rfl, by decide, by decide⟩
  | arr xs => exact ⟨'[', _, rfl, by decide, by decide⟩
  | obj ms => exact ⟨lbrace, _, rfl, by decide, by decide⟩

theorem skipWs_arrBody (xs : JsonArr) (t : List Char) :
    skipWs (renderArrBody xs ++ ']' :: t) = renderArrBody xs ++ ']' :: t := by
  cases xs with
  | nil =>
    simp only [renderArrBody, List.nil_append]
    exact skipWs_not_ws (by decide) t
  | cons v tl =>
    obtain ⟨c, cs, hc, hws, _⟩ := renderJson_head v
    cases tl with
    | nil =>
      rw [renderArrBody, hc, List.cons_append]
      exact skipWs_not_ws hws _
    | cons w tl2 =>
      rw [renderArrBody, hc]
      simp only [List.cons_append, List.append_assoc]
      exact skipWs_not_ws hws _

theorem skipWs_objBody (ms : JsonObj) (t : List Char) :
    skipWs (renderObjBody ms ++ rbrace :: t) = renderObjBody ms ++ rbrace :: t := by
  cases ms with
  | nil =>
    simp only [renderObjBody, List.nil_append]
    exact skipWs_not_ws (by decide) t
  | cons k v tl =>
    cases tl with
    | nil =>
      rw [renderObjBody, renderString]
      simp only [List.cons_append, List.append_assoc]
      exact skipWs_not_ws (by decide) _
    | cons k2 w tl2 =>
      rw [renderObjBody, renderString]
      simp only [List.cons_append, List.append_assoc]
      exact skipWs_not_ws (by decide) _

theorem headNotDigit_cons (c : Char) (r : List Char) (h : isDigitChar c = false) :
    headNotDigit (c :: r) = true := by
  simp [headNotDigit, h]

mutual

theorem rt_val (v : Json) : ∀ (fuel : Nat) (rest : List Char), jsizeV v ≤ fuel →
    headNotDigit rest = true → parseVal fuel (renderJson v ++ rest) = some (v, rest) := by
  cases v with
  | null =>
    intro fuel rest hf _
    simp only [jsizeV] at hf
    obtain ⟨f, rfl⟩ : ∃ f, fuel = f + 1 := ⟨fuel - 1, by omega⟩
    simp only [renderJson, List.cons_append, List.nil_append, parseVal]
    rw [skipWs_not_ws (by decide)]
    simp [stripChars]
  | bool b =>
    intro fuel rest hf _
    simp only [jsizeV] at hf
    obtain ⟨f, rfl⟩ : ∃ f, fuel = f + 1 := ⟨fuel - 1, by omega⟩
    cases b with
    | true =>
      simp only [renderJson, List.cons_append, List.nil_append, parseVal]
      rw [skipWs_not_ws (by decide)]
      simp [stripChars]
    | false =>
      simp only [renderJson, List.cons_append, List.nil_append, parseVal]
      rw [skipWs_not_ws (by decide)]
      simp [stripChars]
  | num n =>
    intro fuel rest hf hnd
    simp only [jsizeV] at hf
    obtain ⟨f, rfl⟩ : ∃ f, fuel = f + 1 := ⟨fuel - 1, by omega⟩
    obtain ⟨c, cs, hc, hdig⟩ := renderNat_head n
    have hone : parseDigits (c.toNat - 48) (cs ++ rest) = (n, rest) := by
      have h2 := parseDigits_render n 0 rest
      rw [parseDigits_stop _ rest hnd] at h2
      rw [hc, List.cons_append] at h2
      rw [show parseDigits 0 (c :: (cs ++ rest))
            = parseDigits (0 * 10 + (c.toNat - 48)) (cs ++ rest) from by
          simp [parseDigits, hdig]] at h2
      simpa using h2
    simp only [renderJson]
    rw [hc, List.cons_append]
    simp only [parseVal]
    rw [skipWs_not_ws (not_ws_of_digit c hdig)]
    simp [hone, digit_ne c 'n' hdig (by decide), digit_ne c 't' hdig (by decide),
      digit_ne c 'f' hdig (by decide), digit_ne c '"' hdig (by decide),
      digit_ne c '[' hdig (by decide), digit_ne c lbrace hdig (by decide), hdig]
  | str s =>
    intro fuel rest hf _
    simp only [jsizeV] at hf
    obtain ⟨f, rfl⟩ : ∃ f, fuel = f + 1 := ⟨fuel - 1, by omega⟩
    simp only [renderJson, renderString, List.cons_append, List.append_assoc,
      List.singleton_append, List.nil_append, parseVal]
    rw [skipWs_not_ws (by decide)]
    simp [parseStringBody_render s.data rest, string_mk_data]
  | arr xs =>
    intro fuel rest hf _
    simp only [jsizeV] at hf
    obtain ⟨f, rfl⟩ : ∃ f, fuel = f + 1 := ⟨fuel - 1, by omega⟩
    simp only [renderJson, List.cons_append, List.append_assoc, List.singleton_append,
      List.nil_append, parseVal]
    rw [skipWs_not_ws (by decide)]
    simp [skipWs_arrBody xs rest, rt_arr xs f rest (by omega)]
  | obj ms =>
    intro fuel rest hf _
    simp only [jsizeV] at hf
    obtain ⟨f, rfl⟩ : ∃ f, fuel = f + 1 := ⟨fuel - 1, by omega⟩
    simp only [renderJson, List.cons_append, List.append_assoc, List.singleton_append,
      List.nil_append, parseVal]
    rw [skipWs_not_ws (by decide)]
    simp [skipWs_objBody ms rest, rt_obj ms f rest (by omega),
      show ¬ lbrace = 'n' from by decide, show ¬ lbrace = 't' from by decide,
      show ¬ lbrace = 'f' from by decide, show ¬ lbrace = '"' from by decide,
      show ¬ lbrace = '[' from by decide]
  termination_by sizeOf v

theorem rt_arr (xs : JsonArr) : ∀ (fuel : Nat) (rest : List Char), jsizeA xs ≤ fuel →
    parseArrItems fuel (renderArrBody xs ++ ']' :: rest) = some (xs, rest) := by
  cases xs with
  | nil =>
    intro fuel rest hf
    simp only [jsizeA] at hf
    obtain ⟨f, rfl⟩ : ∃ f, fuel = f + 1 := ⟨fuel - 1, by omega⟩
    simp only [renderArrBody, List.nil_append, parseArrItems]
    simp
  | cons v tl =>
    intro fuel rest hf
    simp only [jsizeA] at hf
    obtain ⟨f, rfl⟩ : ∃ f, fuel = f + 1 := ⟨fuel - 1, by omega⟩
    obtain ⟨c, cs, hc, hws, hne⟩ := renderJson_head v
    cases tl with
    | nil =>
      have hval : parseVal f (c :: (cs ++ ']' :: rest)) = some (v, ']' :: rest) := by
        rw [← List.cons_append, ← hc]
        exact rt_val v f (']' :: rest) (by omega) (headNotDigit_cons _ _ (by decide))
      rw [renderArrBody, hc, List.cons_append]
      simp only [parseArrItems]
      simp [hne, hval, skipWs_not_ws (show isWsChar ']' = false from by decide) rest,
        show ¬ (']' : Char) = ',' from by decide]
    | cons w tl2 =>
      have hval : parseVal f
          (c :: (cs ++ ',' :: (renderArrBody (.cons w tl2) ++ ']' :: rest)))
          = some (v, ',' :: (renderArrBody (.cons w tl2) ++ ']' :: rest)) := by
        rw [← List.cons_append, ← hc]
        exact rt_val v f _ (by omega) (headNotDigit_cons _ _ (by decide))
      have htl : parseArrItems f (renderArrBody (.cons w tl2) ++ ']' :: rest)
          = some (JsonArr.cons w tl2, rest) :=
        rt_arr (.cons w tl2) f rest (by omega)
      rw [renderArrBody, hc]
      simp only [List.cons_append, List.append_assoc]
      simp only [parseArrItems]
      simp [hne, hval, htl, skipWs_arrBody,
        skipWs_not_ws (show isWsChar ',' = false from by decide)]
  termination_by sizeOf xs

theorem rt_obj (ms : JsonObj) : ∀ (fuel : Nat) (rest : List Char), jsizeO ms ≤ fuel →
    parseObjItems fuel (renderObjBody ms ++ rbrace :: rest) = some (ms, rest) := by
  cases ms with
  | nil =>
    intro fuel rest hf
    simp only [jsizeO] at hf
    obtain ⟨f, rfl⟩ : ∃ f, fuel = f + 1 := ⟨fuel - 1, by omega⟩
    simp only [renderObjBody, List.nil_append, parseObjItems]
    simp
  | cons k v tl =>
    intro fuel rest hf
    simp only [jsizeO] at hf
    obtain ⟨f, rfl⟩ : ∃ f, fuel = f + 1 := ⟨fuel - 1, by omega⟩
    obtain ⟨c, cs, hc, hws, _⟩ := renderJson_head v
    cases tl with
    | nil =>
      have hval : parseVal f (c :: (cs ++ rbrace :: rest)) = some (v, rbrace :: rest) := by
        rw [← List.cons_append, ← hc]
        exact rt_val v f (rbrace :: rest) (by omega) (headNotDigit_cons _ _ (by decide))
      have hkey : parseStringBody
          (renderStringBody k.data ++ '"' :: (':' :: (c :: (cs ++ rbrace :: rest))))
          = some (k.data, ':' :: (c :: (cs ++ rbrace :: rest))) :=
        parseStringBody_render k.data _
      rw [renderObjBody, renderString, hc]
      simp only [List.cons_append, List.append_assoc, List.singleton_append, List.nil_append]
      simp only [parseObjItems]
      simp [show ¬ ('"' : Char) = rbrace from by decide, hkey, hval, hws, string_mk_data,
        skipWs_not_ws (show isWsChar ':' = false from by decide),
        skipWs_not_ws hws,
        skipWs_not_ws (show isWsChar rbrace = false from by decide),
        show ¬ rbrace = ',' from by decide]
    | cons k2 w tl2 =>
      have hval : parseVal f
          (c :: (cs ++ ',' :: (renderObjBody (.cons k2 w tl2) ++ rbrace :: rest)))
          = some (v, ',' :: (renderObjBody (.cons k2 w tl2) ++ rbrace :: rest)) := by
        rw [← List.cons_append, ← hc]
        exact rt_val v f _ (by omega) (headNotDigit_cons _ _ (by decide))
      have hkey : parseStringBody
          (renderStringBody k.data
            ++ '"' :: (':' :: (c :: (cs ++ ',' :: (renderObjBody (.cons k2 w tl2)
                ++ rbrace :: rest)))))
          = some (k.data, ':' :: (c :: (cs ++ ',' :: (renderObjBody (.cons k2 w tl2)
              ++ rbrace :: rest)))) :=
        parseStringBody_render k.data _
      have htl : parseObjItems f (renderObjBody (.cons k2 w tl2) ++ rbrace :: rest)
          = some (JsonObj.cons k2 w tl2, rest) :=
        rt_obj (.cons k2 w tl2) f rest (by omega)
      rw [renderObjBody, renderString, hc]
      simp only [List.cons_append, List.append_assoc, List.singleton_append, List.nil_append]
      simp only [parseObjItems]
      simp [show ¬ ('"' : Char) = rbrace from by decide, hkey, hval, htl, hws, string_mk_data,
        skipWs_not_ws (show isWsChar ':' = false from by decide),
        skipWs_not_ws hws, skipWs_objBody,
        skipWs_not_ws (show isWsChar ',' = false from by decide)]
  termination_by sizeOf ms

end

mutual

theorem jsizeV_le_len (v : Json) : jsizeV v ≤ (renderJson v).length := by
  cases v with
  | null => simp [jsizeV, renderJson]
  | bool b => cases b <;> simp [jsizeV, renderJson]
  | num n =>
    obtain ⟨c, cs, hc, _⟩ := renderNat_head n
    simp [jsizeV, renderJson, hc]
  | str s => simp [jsizeV, renderJson, renderString]
  | arr xs =>
    have h := jsizeA_le_len xs
    simp only [jsizeV, renderJson]
    simp
    omega
  | obj ms =>
    have h := jsizeO_le_len ms
    simp only [jsizeV, renderJson]
    simp
    omega

theorem jsizeA_le_len (xs : JsonArr) : jsizeA xs ≤ (renderArrBody xs).length + 1 := by
  cases xs with
  | nil => simp [jsizeA, renderArrBody]
  | cons v tl =>
    have hv := jsizeV_le_len v
    cases tl with
    | nil =>
      obtain ⟨c, cs, hc, _, _⟩ := renderJson_head v
      simp only [jsizeA, renderArrBody]
      rw [hc] at hv ⊢
      simp only [List.length_cons] at hv ⊢
      omega
    | cons w tl2 =>
      have ht := jsizeA_le_len (JsonArr.cons w tl2)
      simp only [jsizeA, renderArrBody] at ht ⊢
      simp only [List.length_append, List.length_cons] at ht ⊢
      omega

theorem jsizeO_le_len (ms : JsonObj) : jsizeO ms ≤ (renderObjBody ms).length + 1 := by
  cases ms with
  | nil => simp [jsizeO, renderObjBody]
  | cons k v tl =>
    have hv := jsizeV_le_len v
    cases tl with
    | nil =>
      simp only [jsizeO, renderObjBody]
      simp only [List.length_append, List.length_cons]
      omega
    | cons k2 w tl2 =>
      have ht := jsizeO_le_len (JsonObj.cons k2 w tl2)
      simp only [jsizeO, renderObjBody] at ht ⊢
      simp only [List.length_append, List.length_cons] at ht ⊢
      omega

end

/-- The embedded serde_json codec round-trips every modelled value. -/
theorem jsonParse_render (v : Json) : jsonParse (renderJsonStr v) = some v := by
  have hdata : (renderJsonStr v).data = renderJson v := rfl
  rw [jsonParse, hdata]
  have hrt := rt_val v ((renderJson v).length + 1) [] (by
    have := jsizeV_le_len v
    omega) rfl
  rw [List.append_nil] at hrt
  rw [hrt]
  simp [skipWs]

theorem objGet_objInsert (key : String) (v : Json) : ∀ (ms : JsonObj),
    objGet key (objInsert key v ms) = some v := by
  intro ms
  cases ms with
  | nil => simp [objInsert, objGet]
  | cons k w tl =>
    by_cases h : k = key
    · simp [objInsert, objGet, h]
    · simp [objInsert, objGet, h, objGet_objInsert key v tl]
  termination_by ms => sizeOf ms

/-! ### Error taxonomy

Model of the NexusError variants the Core claims exercise (src/error.rs).
Foreign error payloads (std::io::Error, serde_json::Error texts) are not
modelled; variants carry the fields the claims inspect. -/

inductive NexusErr where
  | invalidRunId (runId : String)
  | eventLogLocked
  | eventLogNotFound
  | eventLogCorrupted (line : Nat)
  | serializationErr
  | ioError (operation : String)
  | jsonError (context : String)
  | apiError (message : String) (statusCode : Option Nat)
  | requestTimeout (timeoutSecs : Nat)
  | rateLimited (retryAfter : Option Nat)
  | streamInterrupted (message : String)
deriving DecidableEq

/-! ### Domain types (src/types/event.rs) -/

inductive AgentRole where
  | router
  | researcher
  | planner
  | executor
  | reviewer
  | tool
deriving DecidableEq

structure Actor where
  agent : Option AgentRole
  provider : Option String
  model : Option String
deriving DecidableEq

structure TraceInfo where
  correlationId : Option String
  spanId : Option String
  parentSpanId : Option String
deriving DecidableEq

structure PayloadRef where
  uri : String
  mime : Option String
  sha256 : Option String
  sizeBytes : Option Nat
  label : Option String
deriving DecidableEq

/-- RunEvent (src/types/event.rs).  The chrono timestamp is modelled as its
serialized string; timestamp syntax validation is not modelled. -/
structure RunEvent where
  v : String
  runId : String
  workflowId : Option String
  nodeId : Option String
  eventType : String
  time : String
  trace : Option TraceInfo
  actor : Option Actor
  payload : Option Json
  payloadRef : Option PayloadRef
deriving DecidableEq

/-- RunEvent::new, with the Utc::now() timestamp passed in as a parameter. -/
def RunEvent.new (runId eventType time : String) : RunEvent :=
  { v := "nexus/1", runId := runId, workflowId := none, nodeId := none,
    eventType := eventType, time := time, trace := none, actor := none,
    payload := none, payloadRef := none }

def RunEvent.withActor (e : RunEvent) (a : Actor) : RunEvent := { e with actor := some a }

def RunEvent.withPayload (e : RunEvent) (p : Json) : RunEvent := { e with payload := some p }

/-! ### RunEvent serialization (serde derive on the struct)

serde_json::to_value of a RunEvent always yields a JSON object; optional
fields are omitted when absent (skip_serializing_if attributes). -/

def agentRoleStr : AgentRole → String
  | .router => "router"
  | .researcher => "researcher"
  | .planner => "planner"
  | .executor => "executor"
  | .reviewer => "reviewer"
  | .tool => "tool"

def optField (key : String) (o : Option Json) (tl : JsonObj) : JsonObj :=
  match o with
  | none => tl
  | some j => .cons key j tl

def actorToJson (a : Actor) : Json :=
  .obj (optField "agent" (a.agent.map fun r => .str (agentRoleStr r))
    (optField "provider" (a.provider.map Json.str)
      (optField "model" (a.model.map Json.str) .nil)))

def traceToJson (t : TraceInfo) : Json :=
  .obj (optField "correlation_id" (t.correlationId.map Json.str)
    (optField "span_id" (t.spanId.map Json.str)
      (optField "parent_span_id" (t.parentSpanId.map Json.str) .nil)))

def payloadRefToJson (p : PayloadRef) : Json :=
  .obj (.cons "uri" (.str p.uri)
    (optField "mime" (p.mime.map Json.str)
      (optField "sha256" (p.sha256.map Json.str)
        (optField "size_bytes" (p.sizeBytes.map Json.num)
          (optField "label" (p.label.map Json.str) .nil)))))

/-- serde_json::to_value(event): always a JSON object.  The claims never
depend on member order inside the object. -/
def runEventToObj (e : RunEvent) : JsonObj :=
  .cons "v" (.str e.v)
    (.cons "run_id" (.str e.runId)
      (optField "workflow_id" (e.workflowId.map Json.str)
        (optField "node_id" (e.nodeId.map Json.str)
          (.cons "type" (.str e.eventType)
            (.cons "time" (.str e.time)
              (optField "trace" (e.trace.map traceToJson)
                (optField "actor" (e.actor.map actorToJson)
                  (optField "payload" e.payload
                    (optField "payload_ref" (e.payloadRef.map payloadRefToJson) .nil)))))))))

/-! ### Event log writer (src/event_log/writer.rs)

The file is modelled as the list of its newline-terminated lines; the
buffered writer and fsync do not change what ends up on the line level in
the fault-free executions the claims quantify over, so sync and drop are
content-neutral.  I/O faults are injected explicitly where a claim needs
them. -/

structure WriterState where
  eventSeq : Nat
deriving DecidableEq

def valueGet (key : String) : Json → Option Json
  | .obj ms => objGet key ms
  | _ => none

/-- Rust line.trim().is_empty(). -/
def isBlankLine (s : String) : Bool := s.data.all isWsChar

/-- EventLogWriter::scan_max_event_seq: per line skip blank lines, skip
lines that fail to decode, take the numeric event_seq field if present. -/
def scanStep (m : Nat) (line : String) : Nat :=
  if isBlankLine line then m
  else
    match jsonParse line with
    | none => m
    | some v =>
        match (valueGet "event_seq" v).bind asU64 with
        | some seq => max m seq
        | none => m

def scanMaxEventSeq (lines : List String) : Nat := lines.foldl scanStep 0

/-- EventLogWriter::open on an existing (or fresh, empty) file: the next
sequence is max+1, or 1 when no event_seq was seen. -/
def writerOpen (lines : List String) : WriterState :=
  let maxSeq := scanMaxEventSeq lines
  ⟨if maxSeq = 0 then 1 else maxSeq + 1⟩

/-- Injected outcome of the two fallible writes inside append. -/
inductive AppendFault where
  | ok
  | jsonWrite
  | newlineWrite
deriving DecidableEq

/-- EventLogWriter::append on the serialized event value: check the value
is an object, inject event_seq, write the JSON body, write the newline,
and only then increment the sequence.  On any failure the writer state is
returned unchanged (the partial bytes an interrupted write may leave in
the OS buffer are not observable through the claims). -/
def writerAppend (ev : Json) (fault : AppendFault) (st : WriterState)
    (file : List String) : Option NexusErr × WriterState × List String :=
  match ev with
  | .obj ms =>
      match fault with
      | .ok =>
          (none, ⟨st.eventSeq + 1⟩,
            file ++ [renderJsonStr (.obj (objInsert "event_seq" (.num st.eventSeq) ms))])
      | .jsonWrite => (some .serializationErr, st, file)
      | .newlineWrite => (some (.ioError "write newline"), st, file)
  | _ => (some .serializationErr, st, file)

/-- EventLogWriter::next_seq. -/
def writerNextSeq (st : WriterState) : Nat := st.eventSeq

/-- One writer lifetime: open, a sequence of appends (fault-free I/O),
optional sync, drop.  sync and drop leave the line-level content as the
appends produced it. -/
def runAppends (evs : List Json) (st : WriterState) (file : List String) :
    WriterState × List String :=
  evs.foldl (fun acc ev => (writerAppend ev .ok acc.1 acc.2).2) (st, file)

def runLifetime (evs : List Json) (file : List String) : List String :=
  (runAppends evs (writerOpen file) file).2

def runLifetimes (specs : List (List Json)) (file : List String) : List String :=
  specs.foldl (fun f evs => runLifetime evs f) file

/-- The event_seq values present in the file, in file order. -/
def fileSeqs (lines : List String) : List Nat :=
  lines.filterMap fun line => ((jsonParse line).bind (valueGet "event_seq")).bind asU64

def isObjVal : Json → Bool
  | .obj _ => true
  | _ => false

def countObjEvents (specs : List (List Json)) : Nat :=
  (specs.map fun evs => evs.countP isObjVal).sum

theorem notBlank_obj (ms : JsonObj) : isBlankLine (renderJsonStr (.obj ms)) = false := by
  simp [isBlankLine, renderJsonStr, renderJson]
  intro h
  exact absurd h (by decide)

theorem parse_appended_line (ms : JsonObj) (s : Nat) :
    ((jsonParse (renderJsonStr (.obj (objInsert "event_seq" (.num s) ms)))).bind
        (valueGet "event_seq")).bind asU64 = some s := by
  rw [jsonParse_render]
  simp [valueGet, objGet_objInsert, asU64]

theorem scanStep_appended (m : Nat) (ms : JsonObj) (s : Nat) :
    scanStep m (renderJsonStr (.obj (objInsert "event_seq" (.num s) ms))) = max m s := by
  rw [scanStep, notBlank_obj]
  have h := parse_appended_line ms s
  rw [jsonParse_render] at h ⊢
  simp only [Option.some_bind] at h
  simp [h]

theorem scanMax_append (file : List String) (l : String) :
    scanMaxEventSeq (file ++ [l]) = scanStep (scanMaxEventSeq file) l := by
  simp [scanMaxEventSeq, List.foldl_append]

theorem fileSeqs_append_line (file : List String) (ms : JsonObj) (s : Nat) :
    fileSeqs (file ++ [renderJsonStr (.obj (objInsert "event_seq" (.num s) ms))])
      = fileSeqs file ++ [s] := by
  simp only [fileSeqs, List.filterMap_append]
  congr 1
  simp [parse_appended_line ms s]

theorem writerOpen_of_scan (file : List String) (k : Nat) (h : scanMaxEventSeq file = k) :
    (writerOpen file).eventSeq = k + 1 := by
  simp only [writerOpen, h]
  split <;> omega

theorem runAppends_inv (evs : List Json) : ∀ (st : WriterState) (file : List String) (k : Nat),
    st.eventSeq = k + 1 → fileSeqs file = List.range' 1 k → scanMaxEventSeq file = k →
    (runAppends evs st file).1.eventSeq = k + evs.countP isObjVal + 1
    ∧ fileSeqs (runAppends evs st file).2 = List.range' 1 (k + evs.countP isObjVal)
    ∧ scanMaxEventSeq (runAppends evs st file).2 = k + evs.countP isObjVal := by
  induction evs with
  | nil =>
    intro st file k h1 h2 h3
    simp [runAppends, h1, h2, h3, List.countP_nil]
  | cons ev evs ih =>
    intro st file k h1 h2 h3
    have hstep : runAppends (ev :: evs) st file
        = runAppends evs (writerAppend ev .ok st file).2.1 (writerAppend ev .ok st file).2.2 := by
      simp [runAppends, List.foldl_cons]
    cases ev with
    | obj ms =>
      have hw : (writerAppend (Json.obj ms) .ok st file).2
          = (⟨k + 2⟩, file ++ [renderJsonStr
              (.obj (objInsert "event_seq" (.num (k + 1)) ms))]) := by
        simp [writerAppend, h1]
      have hr : List.range' 1 (k + 1) = List.range' 1 k ++ [k + 1] := by
        have h := @List.range'_concat 1 1 k
        simpa [Nat.add_comm] using h
      have h2' : fileSeqs (file ++ [renderJsonStr
          (.obj (objInsert "event_seq" (.num (k + 1)) ms))]) = List.range' 1 (k + 1) := by
        rw [fileSeqs_append_line, h2, hr]
      have h3' : scanMaxEventSeq (file ++ [renderJsonStr
          (.obj (objInsert "event_seq" (.num (k + 1)) ms))]) = k + 1 := by
        rw [scanMax_append, scanStep_appended, h3]
        omega
      rw [hstep, hw]
      obtain ⟨ha, hb, hc⟩ := ih ⟨k + 2⟩ _ (k + 1) (by simp) h2' h3'
      have hcnt : List.countP isObjVal (Json.obj ms :: evs)
          = List.countP isObjVal evs + 1 := by
        simp [List.countP_cons, isObjVal]
      rw [hcnt]
      refine ⟨?_, ?_, ?_⟩
      · rw [ha]
        omega
      · rw [hb]
        congr 1
        omega
      · rw [hc]
        omega
    | null =>
      rw [hstep]
      have hw : (writerAppend Json.null .ok st file).2 = (st, file) := by
        simp [writerAppend]
      rw [hw]
      obtain ⟨ha, hb, hc⟩ := ih st file k h1 h2 h3
      have hcnt : List.countP isObjVal (Json.null :: evs) = List.countP isObjVal evs := by
        simp [List.countP_cons, isObjVal]
      rw [hcnt]
      exact ⟨ha, hb, hc⟩
    | bool b =>
      rw [hstep]
      have hw : (writerAppend (Json.bool b) .ok st file).2 = (st, file) := by
        simp [writerAppend]
      rw [hw]
      obtain ⟨ha, hb, hc⟩ := ih st file k h1 h2 h3
      have hcnt : List.countP isObjVal (Json.bool b :: evs) = List.countP isObjVal evs := by
        simp [List.countP_cons, isObjVal]
      rw [hcnt]
      exact ⟨ha, hb, hc⟩
    | num n =>
      rw [hstep]
      have hw : (writerAppend (Json.num n) .ok st file).2 = (st, file) := by
        simp [writerAppend]
      rw [hw]
      obtain ⟨ha, hb, hc⟩ := ih st file k h1 h2 h3
      have hcnt : List.countP isObjVal (Json.num n :: evs) = List.countP isObjVal evs := by
        simp [List.countP_cons, isObjVal]
      rw [hcnt]
      exact ⟨ha, hb, hc⟩
    | str s =>
      rw [hstep]
      have hw : (writerAppend (Json.str s) .ok st file).2 = (st, file) := by
        simp [writerAppend]
      rw [hw]
      obtain ⟨ha, hb, hc⟩ := ih st file k h1 h2 h3
      have hcnt : List.countP isObjVal (Json.str s :: evs) = List.countP isObjVal evs := by
        simp [List.countP_cons, isObjVal]
      rw [hcnt]
      exact ⟨ha, hb, hc⟩
    | arr xs =>
      rw [hstep]
      have hw : (writerAppend (Json.arr xs) .ok st file).2 = (st, file) := by
        simp [writerAppend]
      rw [hw]
      obtain ⟨ha, hb, hc⟩ := ih st file k h1 h2 h3
      have hcnt : List.countP isObjVal (Json.arr xs :: evs) = List.countP isObjVal evs := by
        simp [List.countP_cons, isObjVal]
      rw [hcnt]
      exact ⟨ha, hb, hc⟩

theorem runLifetimes_inv (specs : List (List Json)) : ∀ (file : List String) (k : Nat),
    fileSeqs file = List.range' 1 k → scanMaxEventSeq file = k →
    fileSeqs (runLifetimes specs file) = List.range' 1 (k + countObjEvents specs)
    ∧ scanMaxEventSeq (runLifetimes specs file) = k + countObjEvents specs := by
  induction specs with
  | nil =>
    intro file k h2 h3
    simp [runLifetimes, countObjEvents, h2, h3]
  | cons evs specs ih =>
    intro file k h2 h3
    have hopen : (writerOpen file).eventSeq = k + 1 := writerOpen_of_scan file k h3
    have hrl := runAppends_inv evs (writerOpen file) file k hopen h2 h3
    have hstep : runLifetimes (evs :: specs) file = runLifetimes specs (runLifetime evs file) := by
      simp [runLifetimes, List.foldl_cons]
    rw [hstep]
    have := ih (runLifetime evs file) (k + evs.countP isObjVal)
      (by rw [show runLifetime evs file = (runAppends evs (writerOpen file) file).2 from rfl]
          exact hrl.2.1)
      (by rw [show runLifetime evs file = (runAppends evs (writerOpen file) file).2 from rfl]
          exact hrl.2.2)
    rw [this.1, this.2]
    have hcnt : countObjEvents (evs :: specs) = evs.countP isObjVal + countObjEvents specs := by
      simp [countObjEvents]
    rw [hcnt]
    constructor
    · congr 1
      omega
    · omega

def eventJson (e : RunEvent) : Json := .obj (runEventToObj e)

/-- Sequential writer lifetimes at the RunEvent level, starting from a
fresh log file: each lifetime opens the file (scanning for the next
sequence), appends its events, optionally syncs, and drops. -/
def runLifetimesE (specs : List (List RunEvent)) (file : List String) : List String :=
  runLifetimes (specs.map (List.map eventJson)) file

theorem countObjEvents_events (specs : List (List RunEvent)) :
    countObjEvents (specs.map (List.map eventJson)) = (specs.map List.length).sum := by
  simp only [countObjEvents, List.map_map]
  congr 1
  apply List.map_congr_left
  intro evs _
  rw [Function.comp_apply, List.countP_map]
  apply List.countP_eq_length.mpr
  intro a _
  simp [isObjVal, eventJson, Function.comp]

/-- C1: for any number of sequential EventLogWriter lifetimes on the same
path, each performing open, zero or more appends, optional sync and drop,
the concatenation of event_seq values in file order is 1,2,...,N where N
is the total number of events appended, and a further open continues at
N+1 (or 1 when the file carries no event_seq). -/
theorem c1_sequence_continuity (specs : List (List RunEvent)) :
    fileSeqs (runLifetimesE specs []) = List.range' 1 ((specs.map List.length).sum)
    ∧ writerNextSeq (writerOpen (runLifetimesE specs []))
      = (specs.map List.length).sum + 1 := by
  have h := runLifetimes_inv (specs.map (List.map eventJson)) [] 0
    (by simp [fileSeqs]) (by simp [scanMaxEventSeq])
  rw [countObjEvents_events] at h
  constructor
  · have := h.1
    simpa [runLifetimesE] using this
  · have hscan : scanMaxEventSeq (runLifetimesE specs []) = (specs.map List.length).sum := by
      have := h.2
      simpa [runLifetimesE] using this
    rw [writerNextSeq, writerOpen_of_scan _ _ hscan]

/-- C10: append either increments next_seq by exactly one (on Ok) or
leaves it unchanged (on any serialization or I/O failure), and a
subsequent successful append then writes the very sequence number the
failed append would have used. -/
theorem c10_append_atomic (ev : Json) (fault : AppendFault) (st : WriterState)
    (file : List String) :
    ((writerAppend ev fault st file).1 = none →
      (writerAppend ev fault st file).2.1.eventSeq = st.eventSeq + 1)
    ∧ (∀ e, (writerAppend ev fault st file).1 = some e →
        (writerAppend ev fault st file).2.1.eventSeq = st.eventSeq
        ∧ ∀ ms, (writerAppend (Json.obj ms) .ok (writerAppend ev fault st file).2.1
            (writerAppend ev fault st file).2.2).2.2
          = (writerAppend ev fault st file).2.2
            ++ [renderJsonStr (.obj (objInsert "event_seq" (.num st.eventSeq) ms))]) := by
  cases ev <;> cases fault <;> simp [writerAppend]

theorem c10_append_atomic_witness :
    (writerAppend (Json.obj .nil) .jsonWrite ⟨5⟩ []).1 = some NexusErr.serializationErr
    ∧ (writerAppend (Json.obj .nil) .jsonWrite ⟨5⟩ []).2.1.eventSeq = 5
    ∧ (writerAppend (Json.obj .nil) .ok ⟨5⟩ []).1 = none
    ∧ (writerAppend (Json.obj .nil) .ok ⟨5⟩ []).2.1.eventSeq = 5 + 1 :=
  ⟨rfl,
   ((c10_append_atomic (Json.obj .nil) .jsonWrite ⟨5⟩ []).2 NexusErr.serializationErr rfl).1,
   rfl,
   (c10_append_atomic (Json.obj .nil) .ok ⟨5⟩ []).1 rfl⟩

/-! ### Event log reader (src/event_log/reader.rs) -/

/-- BufRead::read_line segmentation: each segment keeps its trailing
newline; a final unterminated segment is returned as well. -/
def readLineAux : List Char → List Char → List (List Char)
  | [], acc => if acc.isEmpty then [] else [acc.reverse]
  | c :: rest, acc =>
      if c = '\n' then ((('\n' :: acc).reverse)) :: readLineAux rest []
      else readLineAux rest (c :: acc)

def readSegments (text : String) : List String :=
  (readLineAux text.data []).map String.mk

/-- str::lines segmentation (used by scan_max_event_seq through
BufRead::lines): the newline is stripped, as is one carriage return
directly before it. -/
def rustLinesAux : List Char → List Char → List (List Char)
  | [], acc => if acc.isEmpty then [] else [acc.reverse]
  | c :: rest, acc =>
      if c = '\n' then
        (match acc with
          | '\r' :: a => a.reverse
          | a => a.reverse) :: rustLinesAux rest []
      else rustLinesAux rest (c :: acc)

def rustLines (text : String) : List String :=
  (rustLinesAux text.data []).map String.mk

/-! RunEvent deserialization (serde derive): v, run_id, type and time are
required; the other fields are optional; unknown fields are ignored. -/

def agentRoleFromStr : String → Option AgentRole
  | "router" => some .router
  | "researcher" => some .researcher
  | "planner" => some .planner
  | "executor" => some .executor
  | "reviewer" => some .reviewer
  | "tool" => some .tool
  | _ => none

def reqStrField (o : Option Json) : Option String :=
  match o with
  | some (.str s) => some s
  | _ => none

def optStrField (o : Option Json) : Option (Option String) :=
  match o with
  | none => some none
  | some .null => some none
  | some (.str s) => some (some s)
  | some _ => none

def optNumField (o : Option Json) : Option (Option Nat) :=
  match o with
  | none => some none
  | some .null => some none
  | some (.num n) => some (some n)
  | some _ => none

def optSubField (f : Json → Option α) (o : Option Json) : Option (Option α) :=
  match o with
  | none => some none
  | some .null => some none
  | some j => (f j).map some

def actorFromJson (v : Json) : Option Actor :=
  match v with
  | .obj ms => do
      let agent ← optSubField (fun j => reqStrField (some j) >>= agentRoleFromStr)
        (objGet "agent" ms)
      let provider ← optStrField (objGet "provider" ms)
      let model ← optStrField (objGet "model" ms)
      pure ⟨agent, provider, model⟩
  | _ => none

def traceFromJson (v : Json) : Option TraceInfo :=
  match v with
  | .obj ms => do
      let c ← optStrField (objGet "correlation_id" ms)
      let s ← optStrField (objGet "span_id" ms)
      let p ← optStrField (objGet "parent_span_id" ms)
      pure ⟨c, s, p⟩
  | _ => none

def payloadRefFromJson (v : Json) : Option PayloadRef :=
  match v with
  | .obj ms => do
      let uri ← reqStrField (objGet "uri" ms)
      let mime ← optStrField (objGet "mime" ms)
      let sha ← optStrField (objGet "sha256" ms)
      let size ← optNumField (objGet "size_bytes" ms)
      let label ← optStrField (objGet "label" ms)
      pure ⟨uri, mime, sha, size, label⟩
  | _ => none

def runEventFromJson (v : Json) : Option RunEvent :=
  match v with
  | .obj ms => do
      let vv ← reqStrField (objGet "v" ms)
      let rid ← reqStrField (objGet "run_id" ms)
      let wf ← optStrField (objGet "workflow_id" ms)
      let nid ← optStrField (objGet "node_id" ms)
      let ty ← reqStrField (objGet "type" ms)
      let tm ← reqStrField (objGet "time" ms)
      let tr ← optSubField traceFromJson (objGet "trace" ms)
      let ac ← optSubField actorFromJson (objGet "actor" ms)
      let pl := match objGet "payload" ms with
        | none => none
        | some .null => none
        | some j => some j
      let pr ← optSubField payloadRefFromJson (objGet "payload_ref" ms)
      pure ⟨vv, rid, wf, nid, ty, tm, tr, ac, pl, pr⟩
  | _ => none

/-- EventLogReader::read_next over the whole file: skip blank lines
(counting them), yield Ok for parsed events and EventLogCorrupted with
the 1-based line number for lines that fail either JSON decoding or the
RunEvent schema. -/
def readResultsAux : List String → Nat → List (Except NexusErr RunEvent)
  | [], _ => []
  | line :: rest, n =>
      if isBlankLine line then readResultsAux rest (n + 1)
      else
        match jsonParse line with
        | none => .error (.eventLogCorrupted n) :: readResultsAux rest (n + 1)
        | some v =>
            match runEventFromJson v with
            | none => .error (.eventLogCorrupted n) :: readResultsAux rest (n + 1)
            | some e => .ok e :: readResultsAux rest (n + 1)

def readResults (text : String) : List (Except NexusErr RunEvent) :=
  readResultsAux (readSegments text) 1

/-- EventLogReader::load_all: collect Ok events, skip corrupted lines
with a warning, propagate any other error. -/
def loadAllAux : List (Except NexusErr RunEvent) → List RunEvent →
    Except NexusErr (List RunEvent)
  | [], acc => .ok acc.reverse
  | .ok e :: rest, acc => loadAllAux rest (e :: acc)
  | .error (.eventLogCorrupted _) :: rest, acc => loadAllAux rest acc
  | .error e :: _, _ => .error e

def loadAll (text : String) : Except NexusErr (List RunEvent) :=
  loadAllAux (readResults text) []

instance {α β : Type} [DecidableEq α] [DecidableEq β] : DecidableEq (Except α β) :=
  fun a b =>
    match a, b with
    | .ok x, .ok y =>
        if h : x = y then isTrue (by rw [h]) else isFalse (fun hh => by cases hh; exact h rfl)
    | .error x, .error y =>
        if h : x = y then isTrue (by rw [h]) else isFalse (fun hh => by cases hh; exact h rfl)
    | .ok _, .error _ => isFalse (fun hh => by cases hh)
    | .error _, .ok _ => isFalse (fun hh => by cases hh)

def c4File : String := "\x7b\"event_seq\":1\x7d\nnot json\n\x7b\"event_seq\":3\x7d\n"

/-- C4 counterexample: on the three-line file of the claim, none of the
three iteration results is Ok — lines 1 and 3 decode as JSON but are
missing the required RunEvent fields — contradicting the claimed
Ok, corrupted, Ok shape and the claimed two-event load_all. -/
theorem c4_counterexample :
    (readResults c4File).map Except.isOk = [false, false, false] := by decide

/-- C4 amended: the writer scan still yields next sequence 4, but the
reader yields EventLogCorrupted for all three lines (line numbers 1, 2
and 3), and load_all returns zero events. -/
theorem c4_corrupt_line_file :
    writerNextSeq (writerOpen (rustLines c4File)) = 4
    ∧ readResults c4File
      = [.error (.eventLogCorrupted 1), .error (.eventLogCorrupted 2),
         .error (.eventLogCorrupted 3)]
    ∧ loadAll c4File = .ok [] := by decide

/-! ### Settings (src/types/settings.rs) -/

inductive PermissionMode where
  | default
  | acceptEdits
  | autopilot
deriving DecidableEq

structure AutopilotConfig where
  maxBatchCu : Nat
  maxBatchSteps : Nat
  autoApprovePatches : Bool
  autoApproveTests : Bool
  autoHandoffs : Bool
deriving DecidableEq

structure NexusSettings where
  schemaVersion : String
  permissionMode : PermissionMode
  denyPaths : List String
  allowPathsWrite : List String
  allowCommands : List (List String)
  askCommands : List (List String)
  denyCommands : List (List String)
  autopilot : Option AutopilotConfig
deriving DecidableEq

inductive SettingsValidationErr where
  | invalidSchemaVersion (version : String)
  | invalidPathPattern (path : String) (reason : String)
  | invalidMaxBatchCu (n : Nat)
  | invalidMaxBatchSteps (n : Nat)
deriving DecidableEq

def defaultNexusSettings : NexusSettings :=
  { schemaVersion := "1.0"
    permissionMode := .default
    denyPaths := [".env*", "**/.ssh/**", "**/.aws/**", "**/.npmrc", "**/.pypirc"]
    allowPathsWrite := []
    allowCommands := []
    askCommands := []
    denyCommands := [["sudo"], ["rm"]]
    autopilot := none }

def containsSubAux (pat : List Char) : List Char → Bool
  | [] => pat.isEmpty
  | c :: rest => pat.isPrefixOf (c :: rest) || containsSubAux pat rest

/-- Rust str::contains for a literal needle. -/
def strContainsSub (s pat : String) : Bool := containsSubAux pat.data s.data

/-- Rust char::is_control: the Unicode Cc category, U+0000..U+001F and
U+007F..U+009F. -/
def isControlChar (c : Char) : Bool :=
  c.toNat < 32 || (127 ≤ c.toNat && c.toNat ≤ 159)

def isAsciiAlphaChar (c : Char) : Bool :=
  (65 ≤ c.toNat && c.toNat ≤ 90) || (97 ≤ c.toNat && c.toNat ≤ 122)

/-- The Windows drive test of validate_path_pattern.  The source checks
the first two UTF-8 bytes; on the first byte being ASCII alphabetic and
the second byte b':' this is equivalent to the first two characters being
ASCII alphabetic and ':'. -/
def windowsDrive : List Char → Bool
  | c0 :: c1 :: _ => isAsciiAlphaChar c0 && c1 = ':'
  | _ => false

def validatePathPattern (path : String) : Except SettingsValidationErr Unit :=
  if strContainsSub path ".." then
    .error (.invalidPathPattern path "path traversal (..) not allowed")
  else if ['/'].isPrefixOf path.data && !(['/', '*', '*', '/'].isPrefixOf path.data) then
    .error (.invalidPathPattern path "absolute paths not allowed in patterns")
  else if windowsDrive path.data then
    .error (.invalidPathPattern path "Windows drive paths not allowed in patterns")
  else if ['\\', '\\'].isPrefixOf path.data then
    .error (.invalidPathPattern path "UNC paths not allowed in patterns")
  else if path.data.any isControlChar then
    .error (.invalidPathPattern path "control characters not allowed in patterns")
  else .ok ()

def validatePatternList : List String → Except SettingsValidationErr Unit
  | [] => .ok ()
  | p :: rest =>
      match validatePathPattern p with
      | .error e => .error e
      | .ok _ => validatePatternList rest

/-- NexusSettings::validate. -/
def validateSettings (s : NexusSettings) : Except SettingsValidationErr Unit :=
  if s.schemaVersion = "1.0" then
    match validatePatternList s.denyPaths with
    | .error e => .error e
    | .ok _ =>
        match validatePatternList s.allowPathsWrite with
        | .error e => .error e
        | .ok _ =>
            match s.autopilot with
            | some ap =>
                if ap.maxBatchCu < 1 then .error (.invalidMaxBatchCu ap.maxBatchCu)
                else if ap.maxBatchSteps < 1 then .error (.invalidMaxBatchSteps ap.maxBatchSteps)
                else .ok ()
            | none => .ok ()
  else .error (.invalidSchemaVersion s.schemaVersion)

theorem validatePatternList_ok : ∀ (l : List String), validatePatternList l = .ok () →
    ∀ p ∈ l, validatePathPattern p = .ok () := by
  intro l
  induction l with
  | nil => simp
  | cons q rest ih =>
    intro h p hp
    rw [validatePatternList] at h
    cases hq : validatePathPattern q with
    | error e =>
      rw [hq] at h
      cases h
    | ok u =>
      cases u
      rw [hq] at h
      cases hp with
      | head => exact hq
      | tail _ hp => exact ih h p hp

/-- C8: the five patterns of the claim are rejected with
InvalidPathPattern, the three accepted ones pass, and a settings value
that validates has every pattern of deny_paths and allow_paths_write
individually valid. -/
theorem c8_path_pattern_safety :
    ((validatePathPattern "../x"
        = .error (.invalidPathPattern "../x" "path traversal (..) not allowed"))
     ∧ (validatePathPattern "/etc/x"
        = .error (.invalidPathPattern "/etc/x" "absolute paths not allowed in patterns"))
     ∧ (validatePathPattern "C:\\x"
        = .error (.invalidPathPattern "C:\\x" "Windows drive paths not allowed in patterns"))
     ∧ (validatePathPattern "\\\\server\\x"
        = .error (.invalidPathPattern "\\\\server\\x" "UNC paths not allowed in patterns"))
     ∧ (validatePathPattern "foo\x7fbar"
        = .error (.invalidPathPattern "foo\x7fbar" "control characters not allowed in patterns"))
     ∧ validatePathPattern ".env*" = .ok ()
     ∧ validatePathPattern "**/.ssh/**" = .ok ()
     ∧ validatePathPattern "/**/foo" = .ok ())
    ∧ ∀ (s : NexusSettings) (p : String), validateSettings s = .ok () →
        p ∈ s.denyPaths ∨ p ∈ s.allowPathsWrite → validatePathPattern p = .ok () := by
  constructor
  · decide
  · intro s p hok hp
    rw [validateSettings] at hok
    by_cases hv : s.schemaVersion = "1.0"
    · rw [if_pos hv] at hok
      cases hd : validatePatternList s.denyPaths with
      | error e => rw [hd] at hok; cases hok
      | ok u =>
        cases u
        rw [hd] at hok
        cases ha : validatePatternList s.allowPathsWrite with
        | error e => rw [ha] at hok; cases hok
        | ok u2 =>
          cases u2
          rcases hp with hp | hp
          · exact validatePatternList_ok _ hd p hp
          · exact validatePatternList_ok _ ha p hp
    · rw [if_neg hv] at hok
      cases hok

theorem c8_path_pattern_safety_witness :
    validateSettings defaultNexusSettings = .ok ()
    ∧ validatePathPattern ".env*" = .ok () :=
  ⟨by decide,
   c8_path_pattern_safety.2 defaultNexusSettings ".env*" (by decide) (Or.inl (by decide))⟩

/-! ### Response parsing (src/executor/parser.rs)

The compiled regular expressions of the source are embedded as explicit
scanners with the leftmost-first matching semantics of the regex crate
for these particular patterns.  \s is modelled as ASCII whitespace; the
program only feeds the scanners normalized text. -/

/-- str::replace("\r\n", "\n") (normalize_line_endings). -/
def normalizeCrlf : List Char → List Char
  | [] => []
  | '\r' :: '\n' :: rest => '\n' :: normalizeCrlf rest
  | c :: rest => c :: normalizeCrlf rest

/-- ResponseParser::validate_run_id: non-empty after trim, no path
separators or traversal, at most 255 bytes. -/
def validateRunId (runId : String) : Except NexusErr Unit :=
  if isBlankLine runId then .error (.invalidRunId runId)
  else if runId.data.contains '/' || runId.data.contains '\\'
      || strContainsSub runId ".." then .error (.invalidRunId runId)
  else if 255 < runId.utf8ByteSize then .error (.invalidRunId runId)
  else .ok ()

/-- Leftmost occurrence of a literal pattern. -/
def findSubAux (pat : List Char) : List Char → Option Nat
  | [] => if pat.isEmpty then some 0 else none
  | c :: rest =>
      if pat.isPrefixOf (c :: rest) then some 0
      else (findSubAux pat rest).map (· + 1)

def trimChars (cs : List Char) : List Char :=
  ((cs.dropWhile isWsChar).reverse.dropWhile isWsChar).reverse

/-- One match of the fenced-diff pattern: the literal tag, a greedy
whitespace run, a lazy capture up to the first closing fence.  Returns
the text before the match, the capture and the text after the match. -/
def nextFencedDiff (cs : List Char) : Option (List Char × List Char × List Char) :=
  match findSubAux "```diff".data cs with
  | none => none
  | some i =>
      let afterTag := cs.drop (i + 7)
      let w := (afterTag.takeWhile isWsChar).length
      let rest2 := afterTag.drop w
      match findSubAux "```".data rest2 with
      | none => none
      | some j => some (cs.take i, rest2.take j, rest2.drop (j + 3))

/-- All fenced-diff captures together with the replace_all residual. -/
def fencedSplitAux : Nat → List Char → List (List Char) × List Char
  | 0, cs => ([], cs)
  | fuel + 1, cs =>
      match nextFencedDiff cs with
      | none => ([], cs)
      | some (pre, cap, after) =>
          let (caps, residual) := fencedSplitAux fuel after
          (cap :: caps, pre ++ residual)

/-- Does a raw-diff block start here: the (?m)^---\s+a/.*$ pattern with
the position at a line start. -/
def rawStartHere (cs : List Char) : Bool :=
  if "---".data.isPrefixOf cs then
    let r := cs.drop 3
    let w := (r.takeWhile isWsChar).length
    0 < w && "a/".data.isPrefixOf (r.drop w)
  else false

def rawDiffStartsAux : List Char → Nat → Bool → List Nat
  | [], _, _ => []
  | c :: rest, i, atLineStart =>
      if atLineStart && rawStartHere (c :: rest) then
        i :: rawDiffStartsAux rest (i + 1) (c = '\n')
      else
        rawDiffStartsAux rest (i + 1) (c = '\n')

def blocksFrom (cs : List Char) : List Nat → List (List Char)
  | [] => []
  | [s] => [cs.drop s]
  | s :: s2 :: rest => (cs.drop s).take (s2 - s) :: blocksFrom cs (s2 :: rest)

/-- collect_raw_diff_blocks: each block runs from one raw-diff start to
the next one (or the end of the text); trimmed, empties discarded. -/
def rawBlocks (cs : List Char) : List (List Char) :=
  ((blocksFrom cs (rawDiffStartsAux cs 0 true)).map trimChars).filter (fun d => !d.isEmpty)

/-- collect_unified_diffs: fenced captures (trimmed, non-empty), then raw
blocks scanned over the text with the fenced matches removed. -/
def collectUnifiedDiffs (cs : List Char) : List (List Char) :=
  let (caps, residual) := fencedSplitAux (cs.length + 1) cs
  ((caps.map trimChars).filter (fun d => !d.isEmpty)) ++ rawBlocks residual

def stripAllAPref : List Char → List Char
  | 'a' :: '/' :: rest => stripAllAPref rest
  | cs => cs

def stripAllBPref : List Char → List Char
  | 'b' :: '/' :: rest => stripAllBPref rest
  | cs => cs

/-- extract_path_from_diff_line. -/
def extractPathFromDiffLine (line : List Char) : Option String :=
  if "--- ".data.isPrefixOf line || "+++ ".data.isPrefixOf line then
    let trimmed := trimChars (line.drop 4)
    let token := trimmed.takeWhile (fun c => !isWsChar c)
    if token.isEmpty then none
    else if token = "/dev/null".data then none
    else
      let normalized := stripAllBPref (stripAllAPref token)
      if normalized.isEmpty then none else some (String.mk normalized)
  else none

/-- extract_files_from_diff: per diff line, first occurrence order,
deduplicated. -/
def extractFilesFromDiff (diff : List Char) : List String :=
  (rustLinesAux diff []).foldl
    (fun acc line =>
      match extractPathFromDiffLine line with
      | some p => if p ∈ acc then acc else acc ++ [p]
      | none => acc) []

/-- generate_summary_from_diff and its fallback. -/
def summaryFromDiff (diff : List Char) (files : List String) : String :=
  match files with
  | [] =>
      if (rustLinesAux diff []).length ≤ 2 then "Apply patch" else "Apply multi-file patch"
  | [f] => "Apply patch to " ++ f
  | f :: rest => "Apply patch to " ++ f ++ " and " ++ toString rest.length ++ " other files"

/-! ### Action types (src/types/action.rs)

HashMap-valued fields are modelled as association lists; the f64 fields
(fuzzy_threshold, match_confidence) inherit the integer restriction of
the JSON model. -/

inductive ActionKindTag where
  | handoff
  | patch
  | command
  | planPatch
  | agendaPatch
  | fileCreate
  | fileRename
  | fileDelete
deriving DecidableEq

inductive PatchFormat where
  | unified
  | searchReplace
  | wholeFile
deriving DecidableEq

inductive OnConflict where
  | fail
  | ours
  | theirs
  | marker
deriving DecidableEq

inductive FallbackStrategy where
  | none
  | fuzzy
  | lineAnchor
deriving DecidableEq

inductive MatchMode where
  | exact
  | whitespaceInsensitive
deriving DecidableEq

inductive PatchMode where
  | replace
  | jsonPatch
deriving DecidableEq

structure SearchReplaceBlock where
  file : String
  search : String
  replace : String
  matchMode : MatchMode
deriving DecidableEq

structure PatchDetails where
  format : PatchFormat
  diff : Option String
  searchReplaceBlocks : Option (List SearchReplaceBlock)
  wholeFileContent : Option (List (String × String))
  files : List String
  baseFileSha256 : Option (List (String × String))
  onConflict : OnConflict
  fallbackStrategy : FallbackStrategy
  fuzzyThreshold : Option Nat
  matchConfidence : Option Nat
deriving DecidableEq

def PatchDetails.defaults : PatchDetails :=
  { format := .unified, diff := none, searchReplaceBlocks := none,
    wholeFileContent := none, files := [], baseFileSha256 := none,
    onConflict := .fail, fallbackStrategy := .none,
    fuzzyThreshold := none, matchConfidence := none }

/-- HandoffDetails; the Rust field names from/to are reserved words here. -/
structure HandoffDetails where
  fromRole : AgentRole
  toRole : AgentRole
  reason : String
  workflowPatchRef : Option String
deriving DecidableEq

structure CommandDetails where
  argv : List String
  cwd : Option String
  timeoutS : Nat
  envAllow : List String
  requiresNetwork : Bool
  purpose : Option String
deriving DecidableEq

structure PlanPatchDetails where
  planId : String
  patchRef : String
  patchMode : PatchMode
  summary : Option String
deriving DecidableEq

structure AgendaPatchDetails where
  targetPath : String
  diff : String
deriving DecidableEq

structure FileCreateDetails where
  path : String
  content : String
  overwrite : Bool
  ignoreIfExists : Bool
deriving DecidableEq

structure FileRenameDetails where
  oldPath : String
  newPath : String
  overwrite : Bool
deriving DecidableEq

structure FileDeleteDetails where
  path : String
  recursive : Bool
  ignoreIfMissing : Bool
deriving DecidableEq

inductive ActionDetails where
  | handoff (d : HandoffDetails)
  | command (d : CommandDetails)
  | planPatch (d : PlanPatchDetails)
  | agendaPatch (d : AgendaPatchDetails)
  | fileCreate (d : FileCreateDetails)
  | fileRename (d : FileRenameDetails)
  | fileDelete (d : FileDeleteDetails)
  | patch (d : PatchDetails)
deriving DecidableEq

structure CreatedBy where
  agent : Option AgentRole
  provider : Option String
  model : Option String
deriving DecidableEq

structure ApprovalGroup where
  id : String
  label : String
  size : Nat
  index : Nat
deriving DecidableEq

structure ProposedAction where
  id : String
  summary : String
  why : Option String
  risk : Nat
  policyTags : List String
  requiresApproval : Bool
  createdBy : Option CreatedBy
  approvalGroup : Option ApprovalGroup
  kind : ActionKindTag
  details : ActionDetails
deriving DecidableEq

/-- generate_action_id. -/
def generateActionId (runId : String) (index : Nat) : String :=
  runId ++ "-action-" ++ toString index

/-- build_patch_action. -/
def buildPatchAction (runId : String) (index : Nat) (summary : String)
    (details : PatchDetails) : ProposedAction :=
  { id := generateActionId runId index, summary := summary, why := none, risk := 1,
    policyTags := [], requiresApproval := true, createdBy := none,
    approvalGroup := none, kind := .patch, details := .patch details }

def patchDetailsFromDiff (diff : String) (files : List String) : PatchDetails :=
  { PatchDetails.defaults with format := .unified, diff := some diff, files := files }

/-- parse_unified_diffs: normalize, collect diffs, build one action per
diff with 1-based indices. -/
def parseUnifiedDiffs (response : String) (runId : String) : List ProposedAction :=
  let normalized := normalizeCrlf response.data
  (collectUnifiedDiffs normalized).enum.map fun (i, d) =>
    let files := extractFilesFromDiff d
    buildPatchAction runId (i + 1) (summaryFromDiff d files)
      (patchDetailsFromDiff (String.mk d) files)

/-! Search/replace extraction: the (?s) pattern
<<<<<<< SEARCH(?:\s+(path))?\r?\n(search lazy)\r?\n=======\r?\n(replace
lazy)\r?\n>>>>>>> REPLACE with the regex preference order: the optional
path group is tried first, its \s+ and path runs longest-first, and the
lazy bodies stop at the first separator/terminator occurrence. -/

def crlfCheck : List Char → Option (List Char)
  | '\r' :: '\n' :: rest => some rest
  | '\n' :: rest => some rest
  | _ => none

def srSep (cs : List Char) : Option (List Char) :=
  (crlfCheck cs).bind (stripChars "=======".data) |>.bind crlfCheck

def srTerm (cs : List Char) : Option (List Char) :=
  (crlfCheck cs).bind (stripChars ">>>>>>> REPLACE".data)

/-- Lazy scan: the shortest prefix whose remainder starts with the given
delimiter; returns the prefix and the input after the delimiter. -/
def lazyScan (f : List Char → Option (List Char)) :
    List Char → List Char → Option (List Char × List Char)
  | acc, cs =>
      match f cs with
      | some rest => some (acc.reverse, rest)
      | none =>
          match cs with
          | [] => none
          | c :: rest => lazyScan f (c :: acc) rest

def srBody (cs : List Char) : Option ((String × String) × List Char) := do
  let (search, r1) ← lazyScan srSep [] cs
  let (rep, r2) ← lazyScan srTerm [] r1
  pure ((String.mk search, String.mk rep), r2)

def nonNlChar (c : Char) : Bool := !(c = '\r' || c = '\n')

/-- Path candidates, longest first, for a fixed \s+ length. -/
def downScanPath (r : List Char) : Nat → Option (String × (String × String) × List Char)
  | 0 => none
  | plen + 1 =>
      match crlfCheck (r.drop (plen + 1)) with
      | some r2 =>
          match srBody r2 with
          | some (b, rest) => some (String.mk (r.take (plen + 1)), b, rest)
          | none => downScanPath r plen
      | none => downScanPath r plen

/-- \s+ candidates, longest first. -/
def downScanWs (cs : List Char) : Nat → Option (String × (String × String) × List Char)
  | 0 => none
  | k + 1 =>
      let r := cs.drop (k + 1)
      match downScanPath r (r.takeWhile nonNlChar).length with
      | some out => some out
      | none => downScanWs cs k

/-- The part of one search/replace match after the literal SEARCH tag:
the optional path alternative first, then the path-less alternative. -/
def srAfterOpen (cs : List Char) : Option ((Option String × String × String) × List Char) :=
  match downScanWs cs (cs.takeWhile isWsChar).length with
  | some (path, b, rest) => some ((some path, b.1, b.2), rest)
  | none =>
      match crlfCheck cs with
      | some r => (srBody r).map fun (b, rest) => ((none, b.1, b.2), rest)
      | none => none

def srOpenPat : List Char := "<<<<<<< SEARCH".data

def mkSrBlock (path : Option String) (search rep : String) : SearchReplaceBlock :=
  { file := match path with
      | some p => String.mk (trimChars p.data)
      | none => ""
    search := search, replace := rep, matchMode := .exact }

/-- collect_search_replace_blocks: successive non-overlapping matches;
an opener that cannot be completed is skipped. -/
def srScanAux : Nat → List Char → List SearchReplaceBlock
  | 0, _ => []
  | fuel + 1, cs =>
      match findSubAux srOpenPat cs with
      | none => []
      | some i =>
          match srAfterOpen (cs.drop (i + srOpenPat.length)) with
          | some ((path, search, rep), rest) =>
              mkSrBlock path search rep :: srScanAux fuel rest
          | none => srScanAux fuel (cs.drop (i + 1))

def collectSearchReplaceBlocks (cs : List Char) : List SearchReplaceBlock :=
  srScanAux (cs.length + 1) cs

/-- summary_from_search_replace. -/
def summaryFromSearchReplace (file : String) : String :=
  if isBlankLine file then "Apply search/replace block"
  else "Apply search/replace to " ++ file

def patchDetailsFromSearchReplace (block : SearchReplaceBlock) : PatchDetails :=
  { PatchDetails.defaults with
      format := .searchReplace
      searchReplaceBlocks := some [block]
      files := if block.file.data.isEmpty then [] else [block.file] }

/-- parse_search_replace. -/
def parseSearchReplace (response : String) (runId : String) : List ProposedAction :=
  let normalized := normalizeCrlf response.data
  (collectSearchReplaceBlocks normalized).enum.map fun (i, block) =>
    buildPatchAction runId (i + 1) (summaryFromSearchReplace block.file)
      (patchDetailsFromSearchReplace block)

example :
    collectSearchReplaceBlocks
        (normalizeCrlf "<<<<<<< SEARCH src/lib.rs\nold\n=======\nnew\n>>>>>>> REPLACE\n".data)
      = [{ file := "src/lib.rs", search := "old", replace := "new", matchMode := .exact }] := by
  decide

example :
    collectSearchReplaceBlocks
        (normalizeCrlf "<<<<<<< SEARCH\nold\n=======\nnew\n>>>>>>> REPLACE\n".data)
      = [{ file := "", search := "old", replace := "new", matchMode := .exact }] := by
  decide

/-! JSON action extraction. -/

def closeFenceOk (cs : List Char) : Bool :=
  "```".data.isPrefixOf (cs.dropWhile isWsChar)

/-- Greedy (?s)\[.*\] capture: the rightmost closing bracket followed by
\s* and a closing fence; r starts at the opening bracket. -/
def greedyCloseAux (r : List Char) : Nat → Option (List Char)
  | 0 => none
  | j + 1 =>
      if (r.drop (j + 1)).take 1 = [']'] then
        if closeFenceOk (r.drop (j + 2)) then some (r.take (j + 2))
        else greedyCloseAux r j
      else greedyCloseAux r j

/-- First capture of the (?s)```json\s*(\[.*\])\s*``` pattern. -/
def fencedJsonAux : Nat → List Char → Option (List Char)
  | 0, _ => none
  | fuel + 1, cs =>
      match findSubAux "```json".data cs with
      | none => none
      | some i =>
          let afterTag := cs.drop (i + 7)
          let w := (afterTag.takeWhile isWsChar).length
          let r := afterTag.drop w
          match r with
          | '[' :: _ =>
              match greedyCloseAux r (r.length - 1) with
              | some cap => some cap
              | none => fencedJsonAux fuel (cs.drop (i + 1))
          | _ => fencedJsonAux fuel (cs.drop (i + 1))

def firstFencedJson (cs : List Char) : Option (List Char) :=
  fencedJsonAux (cs.length + 1) cs

/-- extract_json_arrays: single pass tracking bracket depth, string state
and escapes; collects every top-level balanced bracket span. -/
def extractJsonArraysAux : List Char → Nat → Bool → Bool → List Char → List (List Char)
  | [], _, _, _, _ => []
  | c :: rest, depth, inString, escape, acc =>
      let acc' := if depth > 0 then c :: acc else acc
      if inString then
        if escape then extractJsonArraysAux rest depth true false acc'
        else if c = '\\' then extractJsonArraysAux rest depth true true acc'
        else if c = '"' then extractJsonArraysAux rest depth false false acc'
        else extractJsonArraysAux rest depth true false acc'
      else
        if c = '"' then extractJsonArraysAux rest depth true false acc'
        else if c = '[' then
          if depth = 0 then extractJsonArraysAux rest 1 false false [c]
          else extractJsonArraysAux rest (depth + 1) false false acc'
        else if c = ']' then
          if depth = 0 then extractJsonArraysAux rest 0 false false acc
          else if depth = 1 then acc'.reverse :: extractJsonArraysAux rest 0 false false []
          else extractJsonArraysAux rest (depth - 1) false false acc'
        else extractJsonArraysAux rest depth inString false acc'

def extractJsonArrays (text : List Char) : List (List Char) :=
  extractJsonArraysAux text 0 false false []

def looksLikeActionArray (candidate : String) : Bool :=
  strContainsSub candidate "\"kind\"" && strContainsSub candidate "\"details\""

/-! ProposedAction deserialization (serde derive semantics: required and
defaulted fields as attributed in src/types/action.rs; the untagged
ActionDetails tries its variants in declaration order). -/

def actionKindFromStr : String → Option ActionKindTag
  | "handoff" => some .handoff
  | "patch" => some .patch
  | "command" => some .command
  | "plan_patch" => some .planPatch
  | "agenda_patch" => some .agendaPatch
  | "file_create" => some .fileCreate
  | "file_rename" => some .fileRename
  | "file_delete" => some .fileDelete
  | _ => none

def patchFormatFromStr : String → Option PatchFormat
  | "unified" => some .unified
  | "search_replace" => some .searchReplace
  | "whole_file" => some .wholeFile
  | _ => none

def onConflictFromStr : String → Option OnConflict
  | "fail" => some .fail
  | "ours" => some .ours
  | "theirs" => some .theirs
  | "marker" => some .marker
  | _ => none

def fallbackFromStr : String → Option FallbackStrategy
  | "none" => some .none
  | "fuzzy" => some .fuzzy
  | "line_anchor" => some .lineAnchor
  | _ => none

def matchModeFromStr : String → Option MatchMode
  | "exact" => some .exact
  | "whitespace_insensitive" => some .whitespaceInsensitive
  | _ => none

def patchModeFromStr : String → Option PatchMode
  | "replace" => some .replace
  | "json_patch" => some .jsonPatch
  | _ => none

/-- A field with #[serde(default)]: absent uses the default, a present
value must have the right shape (null is not accepted). -/
def defNumField (o : Option Json) (d : Nat) : Option Nat :=
  match o with
  | none => some d
  | some (.num n) => some n
  | some _ => none

def defBoolField (o : Option Json) (d : Bool) : Option Bool :=
  match o with
  | none => some d
  | some (.bool b) => some b
  | some _ => none

def defEnumField (f : String → Option α) (o : Option Json) (d : α) : Option α :=
  match o with
  | none => some d
  | some (.str s) => f s
  | some _ => none

def jsonArrToList : JsonArr → List Json
  | .nil => []
  | .cons v tl => v :: jsonArrToList tl

def jsonObjToList : JsonObj → List (String × Json)
  | .nil => []
  | .cons k v tl => (k, v) :: jsonObjToList tl

def strListFromJson : Json → Option (List String)
  | .arr xs => (jsonArrToList xs).mapM fun j =>
      match j with
      | .str s => some s
      | _ => none
  | _ => none

def defStrListField (o : Option Json) : Option (List String) :=
  match o with
  | none => some []
  | some j => strListFromJson j

def strMapFromJson : Json → Option (List (String × String))
  | .obj ms => (jsonObjToList ms).mapM fun (k, j) =>
      match j with
      | .str s => some (k, s)
      | _ => none
  | _ => none

def handoffFromJson : Json → Option HandoffDetails
  | .obj ms => do
      let f ← reqStrField (objGet "from" ms) >>= agentRoleFromStr
      let t ← reqStrField (objGet "to" ms) >>= agentRoleFromStr
      let reason ← reqStrField (objGet "reason" ms)
      let wref ← optStrField (objGet "workflow_patch_ref" ms)
      pure ⟨f, t, reason, wref⟩
  | _ => none

def commandFromJson : Json → Option CommandDetails
  | .obj ms => do
      let argv ← (objGet "argv" ms).bind strListFromJson
      let cwd ← optStrField (objGet "cwd" ms)
      let ts ← defNumField (objGet "timeout_s" ms) 1200
      let env ← defStrListField (objGet "env_allow" ms)
      let net ← defBoolField (objGet "requires_network" ms) false
      let purpose ← optStrField (objGet "purpose" ms)
      pure ⟨argv, cwd, ts, env, net, purpose⟩
  | _ => none

def planPatchFromJson : Json → Option PlanPatchDetails
  | .obj ms => do
      let pid ← reqStrField (objGet "plan_id" ms)
      let pref ← reqStrField (objGet "patch_ref" ms)
      let mode ← defEnumField patchModeFromStr (objGet "patch_mode" ms) .replace
      let summary ← optStrField (objGet "summary" ms)
      pure ⟨pid, pref, mode, summary⟩
  | _ => none

def agendaPatchFromJson : Json → Option AgendaPatchDetails
  | .obj ms => do
      let tp ← reqStrField (objGet "target_path" ms)
      let d ← reqStrField (objGet "diff" ms)
      pure ⟨tp, d⟩
  | _ => none

def fileCreateFromJson : Json → Option FileCreateDetails
  | .obj ms => do
      let p ← reqStrField (objGet "path" ms)
      let c ← reqStrField (objGet "content" ms)
      let ow ← defBoolField (objGet "overwrite" ms) false
      let ig ← defBoolField (objGet "ignore_if_exists" ms) false
      pure ⟨p, c, ow, ig⟩
  | _ => none

def fileRenameFromJson : Json → Option FileRenameDetails
  | .obj ms => do
      let op ← reqStrField (objGet "old_path" ms)
      let np ← reqStrField (objGet "new_path" ms)
      let ow ← defBoolField (objGet "overwrite" ms) false
      pure ⟨op, np, ow⟩
  | _ => none

def fileDeleteFromJson : Json → Option FileDeleteDetails
  | .obj ms => do
      let p ← reqStrField (objGet "path" ms)
      let rec ← defBoolField (objGet "recursive" ms) false
      let ig ← defBoolField (objGet "ignore_if_missing" ms) false
      pure ⟨p, rec, ig⟩
  | _ => none

def srBlockFromJson : Json → Option SearchReplaceBlock
  | .obj ms => do
      let f ← reqStrField (objGet "file" ms)
      let s ← reqStrField (objGet "search" ms)
      let r ← reqStrField (objGet "replace" ms)
      let mm ← defEnumField matchModeFromStr (objGet "match_mode" ms) .exact
      pure ⟨f, s, r, mm⟩
  | _ => none

def patchDetailsFromJson : Json → Option PatchDetails
  | .obj ms => do
      let fmt ← defEnumField patchFormatFromStr (objGet "format" ms) .unified
      let diff ← optStrField (objGet "diff" ms)
      let srb ← optSubField (fun j =>
        match j with
        | .arr xs => (jsonArrToList xs).mapM srBlockFromJson
        | _ => none) (objGet "search_replace_blocks" ms)
      let wfc ← optSubField strMapFromJson (objGet "whole_file_content" ms)
      let files ← defStrListField (objGet "files" ms)
      let sha ← optSubField strMapFromJson (objGet "base_file_sha256" ms)
      let oc ← defEnumField onConflictFromStr (objGet "on_conflict" ms) .fail
      let fb ← defEnumField fallbackFromStr (objGet "fallback_strategy" ms) .none
      let ft ← optNumField (objGet "fuzzy_threshold" ms)
      let mc ← optNumField (objGet "match_confidence" ms)
      pure ⟨fmt, diff, srb, wfc, files, sha, oc, fb, ft, mc⟩
  | _ => none

/-- Untagged ActionDetails: variants tried in declaration order, the
first that deserializes wins. -/
def actionDetailsFromJson (j : Json) : Option ActionDetails :=
  match handoffFromJson j with
  | some d => some (.handoff d)
  | none =>
  match commandFromJson j with
  | some d => some (.command d)
  | none =>
  match planPatchFromJson j with
  | some d => some (.planPatch d)
  | none =>
  match agendaPatchFromJson j with
  | some d => some (.agendaPatch d)
  | none =>
  match fileCreateFromJson j with
  | some d => some (.fileCreate d)
  | none =>
  match fileRenameFromJson j with
  | some d => some (.fileRename d)
  | none =>
  match fileDeleteFromJson j with
  | some d => some (.fileDelete d)
  | none => (patchDetailsFromJson j).map .patch

def createdByFromJson : Json → Option CreatedBy
  | .obj ms => do
      let a ← optSubField (fun j => reqStrField (some j) >>= agentRoleFromStr)
        (objGet "agent" ms)
      let p ← optStrField (objGet "provider" ms)
      let m ← optStrField (objGet "model" ms)
      pure ⟨a, p, m⟩
  | _ => none

def approvalGroupFromJson : Json → Option ApprovalGroup
  | .obj ms => do
      let i ← reqStrField (objGet "id" ms)
      let l ← reqStrField (objGet "label" ms)
      let s ← (objGet "size" ms).bind asU64
      let x ← (objGet "index" ms).bind asU64
      pure ⟨i, l, s, x⟩
  | _ => none

def proposedActionFromJson : Json → Option ProposedAction
  | .obj ms => do
      let id ← reqStrField (objGet "id" ms)
      let summary ← reqStrField (objGet "summary" ms)
      let why ← optStrField (objGet "why" ms)
      let risk ← defNumField (objGet "risk" ms) 1
      if 255 < risk then none
      else do
        let tags ← defStrListField (objGet "policy_tags" ms)
        let ra ← defBoolField (objGet "requires_approval" ms) true
        let cb ← optSubField createdByFromJson (objGet "created_by" ms)
        let ag ← optSubField approvalGroupFromJson (objGet "approval_group" ms)
        let kind ← reqStrField (objGet "kind" ms) >>= actionKindFromStr
        let details ← (objGet "details" ms).bind actionDetailsFromJson
        pure ⟨id, summary, why, risk, tags, ra, cb, ag, kind, details⟩
  | _ => none

/-- parse_actions_from_json: serde_json::from_str on Vec of
ProposedAction; any failure surfaces as JsonError. -/
def parseActionsFromJson (json : String) : Except NexusErr (List ProposedAction) :=
  match jsonParse json with
  | some (.arr xs) =>
      match (jsonArrToList xs).mapM proposedActionFromJson with
      | some actions => .ok actions
      | none => .error (.jsonError "Failed to parse JSON actions")
  | _ => .error (.jsonError "Failed to parse JSON actions")

/-- parse_json_actions: the first fenced json array, else the first
inline bracket-balanced candidate containing the kind and details keys,
else the empty list. -/
def parseJsonActions (response : String) : Except NexusErr (List ProposedAction) :=
  let normalized := normalizeCrlf response.data
  match firstFencedJson normalized with
  | some cap => parseActionsFromJson (String.mk cap)
  | none =>
      match (extractJsonArrays normalized).find?
          (fun cand => looksLikeActionArray (String.mk cand)) with
      | some cand => parseActionsFromJson (String.mk cand)
      | none => .ok []

/-- ResponseParser::parse: validate the run id, then unified diffs,
search/replace blocks and JSON arrays in that order; the first non-empty
stage wins. -/
def parseResponse (response : String) (runId : String) :
    Except NexusErr (List ProposedAction) :=
  match validateRunId runId with
  | .error e => .error e
  | .ok _ =>
      let diffActions := parseUnifiedDiffs response runId
      if !diffActions.isEmpty then .ok diffActions
      else
        let srActions := parseSearchReplace response runId
        if !srActions.isEmpty then .ok srActions
        else parseJsonActions response

example :
    (parseUnifiedDiffs
        "Patch follows:\n```diff\n--- a/src/lib.rs\n+++ b/src/lib.rs\n@@ -1 +1 @@\n-old\n+new\n```\n"
        "run-123").map (fun a => (a.id, a.summary))
      = [("run-123-action-1", "Apply patch to src/lib.rs")] := by decide

example :
    (parseUnifiedDiffs "--- a/src/main.rs\n+++ b/src/main.rs\n@@ -1 +1 @@\n-old\n+new\n"
        "run-123").map (fun a => a.id)
      = ["run-123-action-1"] := by decide

example :
    (parseActionsFromJson
        "[\n  \x7b\"id\":\"action-1\",\"summary\":\"Update\",\"kind\":\"patch\",\"details\":\x7b\"format\":\"unified\",\"diff\":\"x\"\x7d\x7d\n]").map
      (List.map fun a => (a.id, a.kind))
      = .ok [("action-1", ActionKindTag.patch)] := by decide

example : parseResponse "" "run-123" = .ok [] := by decide

/-- C9: for every response, a run_id that is blank after trimming,
contains a path separator or traversal, or exceeds 255 bytes makes parse
return InvalidRunId carrying that run_id, regardless of the response. -/
theorem c9_invalid_run_id (response runId : String)
    (h : isBlankLine runId = true ∨ runId.data.contains '/' = true
      ∨ runId.data.contains '\\' = true ∨ strContainsSub runId ".." = true
      ∨ 255 < runId.utf8ByteSize) :
    parseResponse response runId = .error (.invalidRunId runId) := by
  have hv : validateRunId runId = .error (.invalidRunId runId) := by
    rw [validateRunId]
    by_cases h1 : isBlankLine runId = true
    · rw [if_pos h1]
    · rw [if_neg h1]
      by_cases h2 : (runId.data.contains '/' || runId.data.contains '\\'
          || strContainsSub runId "..") = true
      · rw [if_pos h2]
      · rw [if_neg h2]
        by_cases h3 : 255 < runId.utf8ByteSize
        · rw [if_pos h3]
        · exfalso
          simp only [Bool.or_eq_true, not_or] at h2
          rcases h with h | h | h | h | h
          · exact h1 h
          · exact h2.1.1 h
          · exact h2.1.2 h
          · exact h2.2 h
          · exact h3 h
  rw [parseResponse, hv]

theorem c9_invalid_run_id_witness :
    parseResponse "some response" "bad/id" = .error (.invalidRunId "bad/id") :=
  c9_invalid_run_id "some response" "bad/id" (Or.inr (Or.inl (by decide)))

/-- C5: with a valid run_id, parse consults unified diffs, then
search/replace, then JSON, returning the first non-empty stage; when the
diff and search/replace stages are empty the result is exactly the JSON
stage, and when that stage matches nothing the result is Ok []. -/
theorem c5_parse_fallback_order (response runId : String)
    (hok : validateRunId runId = .ok ()) :
    (parseUnifiedDiffs response runId ≠ [] →
        parseResponse response runId = .ok (parseUnifiedDiffs response runId))
    ∧ (parseUnifiedDiffs response runId = [] → parseSearchReplace response runId ≠ [] →
        parseResponse response runId = .ok (parseSearchReplace response runId))
    ∧ (parseUnifiedDiffs response runId = [] → parseSearchReplace response runId = [] →
        parseResponse response runId = parseJsonActions response)
    ∧ (parseUnifiedDiffs response runId = [] → parseSearchReplace response runId = [] →
        parseJsonActions response = .ok [] → parseResponse response runId = .ok []) := by
  rw [parseResponse, hok]
  refine ⟨?_, ?_, ?_, ?_⟩
  · intro hne
    rw [if_pos]
    simpa using hne
  · intro he hne
    rw [if_neg (by simp [he]), if_pos (by simpa using hne)]
  · intro he hse
    rw [if_neg (by simp [he]), if_neg (by simp [hse])]
  · intro he hse hj
    rw [if_neg (by simp [he]), if_neg (by simp [hse]), hj]

theorem c5_parse_fallback_order_witness :
    validateRunId "run-123" = .ok ()
    ∧ parseResponse "--- a/src/main.rs\n+++ b/src/main.rs\n@@ -1 +1 @@\n-old\n+new\n"
        "run-123"
      = .ok (parseUnifiedDiffs
          "--- a/src/main.rs\n+++ b/src/main.rs\n@@ -1 +1 @@\n-old\n+new\n" "run-123") :=
  ⟨by decide,
   (c5_parse_fallback_order
      "--- a/src/main.rs\n+++ b/src/main.rs\n@@ -1 +1 @@\n-old\n+new\n" "run-123"
      (by decide)).1 (by decide)⟩

/-! ### Event factories (src/event_log/helpers.rs) -/

def toolActor : Actor := ⟨some .tool, none, none⟩

def defaultExecutorActor : Actor := ⟨some .executor, some "openai", some "codex"⟩

def executorStarted (runId task : String) (fileCount : Nat) (model now : String) : RunEvent :=
  ((RunEvent.new runId "executor.started" now).withActor
      ⟨some .executor, some "openai", some model⟩).withPayload
    (.obj (.cons "task" (.str task)
      (.cons "file_count" (.num fileCount)
        (.cons "model" (.str model) .nil))))

def actionKindLabel : ActionKindTag → String
  | .handoff => "handoff"
  | .patch => "patch"
  | .command => "command"
  | .planPatch => "plan_patch"
  | .agendaPatch => "agenda_patch"
  | .fileCreate => "file_create"
  | .fileRename => "file_rename"
  | .fileDelete => "file_delete"

def actionProposed (runId actionId kind summary : String) (actor : Option Actor)
    (now : String) : RunEvent :=
  ((RunEvent.new runId "action.proposed" now).withActor
      (actor.getD defaultExecutorActor)).withPayload
    (.obj (.cons "action_id" (.str actionId)
      (.cons "kind" (.str kind)
        (.cons "summary" (.str summary) .nil))))

def executorCompleted (runId : String) (actionCount durationMs : Nat)
    (now : String) : RunEvent :=
  ((RunEvent.new runId "executor.completed" now).withActor defaultExecutorActor).withPayload
    (.obj (.cons "action_count" (.num actionCount)
      (.cons "duration_ms" (.num durationMs)
        (.cons "success" (.bool true) .nil))))

def executorFailed (runId errText : String) (statusCode : Option Nat)
    (now : String) : RunEvent :=
  ((RunEvent.new runId "executor.failed" now).withActor defaultExecutorActor).withPayload
    (.obj (.cons "error" (.str errText)
      (.cons "success" (.bool false)
        (optField "status_code" (statusCode.map Json.num) .nil))))

/-- thiserror Display of the modelled error variants; unmodelled payload
parts (file paths, foreign error texts) are elided. -/
def errDisplay : NexusErr → String
  | .invalidRunId r => "invalid run_id: " ++ r
  | .eventLogLocked => "event log is locked by another process"
  | .eventLogNotFound => "event log not found"
  | .eventLogCorrupted line => "event log corrupted at line " ++ toString line
  | .serializationErr => "serialization error"
  | .ioError op => "I/O error: " ++ op
  | .jsonError ctx => "JSON error: " ++ ctx
  | .apiError msg _ => "API error: " ++ msg
  | .requestTimeout t => "request timeout after " ++ toString t ++ "s"
  | .rateLimited _ => "rate limited"
  | .streamInterrupted msg => "stream interrupted: " ++ msg

/-! ### Executor adapter (src/executor/adapter.rs)

The transport and stream accumulation are summarized by an execResult
parameter: either the accumulated response text or the transport error.
Writer I/O is driven by a fault script consumed one entry per writer
call (append or sync); an empty script means every call succeeds. -/

structure WriterFx where
  st : WriterState
  file : List String
  script : List (Option NexusErr)
  emitted : List RunEvent
  syncs : Nat
deriving DecidableEq

def fxAppend (e : RunEvent) (w : WriterFx) : Option NexusErr × WriterFx :=
  match w.script with
  | some err :: rest => (some err, { w with script := rest })
  | sc =>
      let r := writerAppend (eventJson e) .ok w.st w.file
      (none, { st := r.2.1, file := r.2.2, script := sc.tail,
               emitted := w.emitted ++ [e], syncs := w.syncs })

def fxSync (w : WriterFx) : Option NexusErr × WriterFx :=
  match w.script with
  | some err :: rest => (some err, { w with script := rest })
  | sc => (none, { w with script := sc.tail, syncs := w.syncs + 1 })

/-- CodexAdapter::execute_internal with the network summarized. -/
def executeInternal (dryRun : Bool) (execResult : Except NexusErr String)
    (runId : String) : Except NexusErr (List ProposedAction) :=
  if dryRun then .ok []
  else
    match execResult with
    | .error e => .error e
    | .ok response => parseResponse response runId

def errStatusCode : NexusErr → Option Nat
  | .apiError _ sc => sc
  | _ => none

/-- The action.proposed loop of execute_with_logging: one event per
action, aborting on the first append failure. -/
def appendProposed (runId now : String) :
    List ProposedAction → WriterFx → Option NexusErr × WriterFx
  | [], w => (none, w)
  | a :: rest, w =>
      match fxAppend (actionProposed runId a.id (actionKindLabel a.kind) a.summary none now) w with
      | (some e, w1) => (some e, w1)
      | (none, w1) => appendProposed runId now rest w1

/-- CodexAdapter::execute_with_logging, with the generated run_id, the
wall-clock timestamp and the measured duration as parameters. -/
def executeWithLogging (runId task model : String) (fileCount : Nat) (dryRun : Bool)
    (execResult : Except NexusErr String) (durationMs : Nat) (now : String)
    (w : WriterFx) : Except NexusErr (List ProposedAction) × WriterFx :=
  match fxAppend (executorStarted runId task fileCount model now) w with
  | (some e, w1) => (.error e, w1)
  | (none, w1) =>
      match executeInternal dryRun execResult runId with
      | .ok actions =>
          match appendProposed runId now actions w1 with
          | (some e, w2) => (.error e, w2)
          | (none, w2) =>
              match fxAppend (executorCompleted runId actions.length durationMs now) w2 with
              | (some e, w3) => (.error e, w3)
              | (none, w3) =>
                  match fxSync w3 with
                  | (some e, w4) => (.error e, w4)
                  | (none, w4) => (.ok actions, w4)
      | .error err =>
          match fxAppend (executorFailed runId (errDisplay err) (errStatusCode err) now) w1 with
          | (some e, w2) => (.error e, w2)
          | (none, w2) =>
              match fxSync w2 with
              | (some e, w3) => (.error e, w3)
              | (none, w3) => (.error err, w3)

/-- C3 counterexample: internal execution fails with an ApiError E, the
cleanup append of executor.failed itself fails with an I/O error F, and
the caller receives F — the original error E is not preserved, so the
claimed suppression of cleanup failures does not hold. -/
theorem c3_counterexample :
    (executeWithLogging "run_1" "task" "gpt-5.2-codex" 0 false
        (.error (.apiError "boom" (some 500))) 5 "2026-01-08T12:00:00Z"
        ⟨⟨1⟩, [], [none, some (.ioError "write newline")], [], 0⟩).1
      = .error (.ioError "write newline")
    ∧ (NexusErr.ioError "write newline") ≠ .apiError "boom" (some 500) := by
  constructor
  · rfl
  · decide

/-- C3 amended: on an internal failure E the adapter appends
executor.failed (with the status code when E is an ApiError) and syncs;
when both cleanup calls succeed the caller receives E itself, but a
failure of the cleanup append, or of the sync, is propagated in place of
E rather than suppressed. -/
theorem c3_failure_cleanup (runId task model now : String) (fileCount durationMs : Nat)
    (err f : NexusErr) (st0 : WriterState) (file0 : List String) :
    ((executeWithLogging runId task model fileCount false (.error err) durationMs now
        ⟨st0, file0, [], [], 0⟩).1 = .error err
      ∧ (executeWithLogging runId task model fileCount false (.error err) durationMs now
          ⟨st0, file0, [], [], 0⟩).2.emitted
        = [executorStarted runId task fileCount model now,
           executorFailed runId (errDisplay err) (errStatusCode err) now]
      ∧ (executeWithLogging runId task model fileCount false (.error err) durationMs now
          ⟨st0, file0, [], [], 0⟩).2.syncs = 1)
    ∧ (executeWithLogging runId task model fileCount false (.error err) durationMs now
        ⟨st0, file0, [none, some f], [], 0⟩).1 = .error f
    ∧ (executeWithLogging runId task model fileCount false (.error err) durationMs now
        ⟨st0, file0, [none, none, some f], [], 0⟩).1 = .error f := by
  refine ⟨⟨?_, ?_, ?_⟩, ?_, ?_⟩ <;>
    simp [executeWithLogging, fxAppend, fxSync, executeInternal]

theorem mem_parseUnifiedDiffs_prefix (response runId : String) :
    ∀ a ∈ parseUnifiedDiffs response runId, runId.data <+: a.id.data := by
  intro a ha
  rw [parseUnifiedDiffs] at ha
  obtain ⟨⟨i, d⟩, _, rfl⟩ := List.mem_map.mp ha
  show runId.data <+: (generateActionId runId (i + 1)).data
  rw [generateActionId, String.data_append, String.data_append]
  exact (List.prefix_append _ _).trans (List.prefix_append _ _)

theorem mem_parseSearchReplace_prefix (response runId : String) :
    ∀ a ∈ parseSearchReplace response runId, runId.data <+: a.id.data := by
  intro a ha
  rw [parseSearchReplace] at ha
  obtain ⟨⟨i, b⟩, _, rfl⟩ := List.mem_map.mp ha
  show runId.data <+: (generateActionId runId (i + 1)).data
  rw [generateActionId, String.data_append, String.data_append]
  exact (List.prefix_append _ _).trans (List.prefix_append _ _)

theorem fxAppend_clean (e : RunEvent) (w : WriterFx) (h : w.script = []) :
    (fxAppend e w).1 = none
    ∧ (fxAppend e w).2.script = []
    ∧ (fxAppend e w).2.emitted = w.emitted ++ [e] := by
  simp [fxAppend, h]

theorem fxSync_clean (w : WriterFx) (h : w.script = []) :
    (fxSync w).1 = none ∧ (fxSync w).2.script = []
    ∧ (fxSync w).2.emitted = w.emitted ∧ (fxSync w).2.syncs = w.syncs + 1 := by
  simp [fxSync, h]

theorem appendProposed_clean (runId now : String) : ∀ (acts : List ProposedAction)
    (w : WriterFx), w.script = [] →
    (appendProposed runId now acts w).1 = none
    ∧ (appendProposed runId now acts w).2.script = []
    ∧ (appendProposed runId now acts w).2.emitted
      = w.emitted ++ acts.map (fun a =>
          actionProposed runId a.id (actionKindLabel a.kind) a.summary none now) := by
  intro acts
  induction acts with
  | nil =>
    intro w h
    simp [appendProposed, h]
  | cons a rest ih =>
    intro w h
    rw [appendProposed]
    have hfx := fxAppend_clean
      (actionProposed runId a.id (actionKindLabel a.kind) a.summary none now) w h
    rcases hx : fxAppend (actionProposed runId a.id (actionKindLabel a.kind) a.summary none now) w
      with ⟨o, w1⟩
    rw [hx] at hfx
    cases o with
    | some e => cases hfx.1
    | none =>
        have := ih w1 hfx.2.1
        simp only []
        refine ⟨this.1, this.2.1, ?_⟩
        rw [this.2.2, hfx.2.2]
        simp

/-- C2 amended: a fault-free successful execute_with_logging emits a
non-empty event list all carrying the one generated run_id, and every
action produced by the unified-diff or search/replace stages has that
run_id as a prefix of its ID.  Actions recovered through the JSON stage
keep the IDs found in the JSON text, which need not carry the prefix
(see the counterexample). -/
theorem c2_run_correlation (runId task model now response : String)
    (fileCount durationMs : Nat) (st0 : WriterState) (file0 : List String)
    (actions : List ProposedAction)
    (hparse : parseResponse response runId = .ok actions) :
    ((executeWithLogging runId task model fileCount false (.ok response) durationMs now
        ⟨st0, file0, [], [], 0⟩).1 = .ok actions
     ∧ (executeWithLogging runId task model fileCount false (.ok response) durationMs now
        ⟨st0, file0, [], [], 0⟩).2.emitted ≠ []
     ∧ ∀ e ∈ (executeWithLogging runId task model fileCount false (.ok response) durationMs now
        ⟨st0, file0, [], [], 0⟩).2.emitted, e.runId = runId)
    ∧ ((parseUnifiedDiffs response runId ≠ [] ∨ parseSearchReplace response runId ≠ []) →
        ∀ a ∈ actions, runId.data <+: a.id.data) := by
  have w0def : (⟨st0, file0, [], [], 0⟩ : WriterFx).script = [] := rfl
  have hfx0 := fxAppend_clean (executorStarted runId task fileCount model now)
    ⟨st0, file0, [], [], 0⟩ w0def
  rcases hx0 : fxAppend (executorStarted runId task fileCount model now)
      ⟨st0, file0, [], [], 0⟩ with ⟨o0, w1⟩
  rw [hx0] at hfx0
  cases o0 with
  | some e => cases hfx0.1
  | none =>
  have hap := appendProposed_clean runId now actions w1 hfx0.2.1
  rcases hx1 : appendProposed runId now actions w1 with ⟨o1, w2⟩
  rw [hx1] at hap
  cases o1 with
  | some e => cases hap.1
  | none =>
  have hfx2 := fxAppend_clean (executorCompleted runId actions.length durationMs now)
    w2 hap.2.1
  rcases hx2 : fxAppend (executorCompleted runId actions.length durationMs now) w2
    with ⟨o2, w3⟩
  rw [hx2] at hfx2
  cases o2 with
  | some e => cases hfx2.1
  | none =>
  have hfs := fxSync_clean w3 hfx2.2.1
  rcases hx3 : fxSync w3 with ⟨o3, w4⟩
  rw [hx3] at hfs
  cases o3 with
  | some e => cases hfs.1
  | none =>
  have hrun : executeWithLogging runId task model fileCount false (.ok response)
      durationMs now ⟨st0, file0, [], [], 0⟩ = (.ok actions, w4) := by
    rw [executeWithLogging, hx0]
    simp only [executeInternal, Bool.false_eq_true, if_false, reduceIte, hparse,
      hx1, hx2, hx3]
  have hemit : w4.emitted
      = [executorStarted runId task fileCount model now]
        ++ actions.map (fun a =>
            actionProposed runId a.id (actionKindLabel a.kind) a.summary none now)
        ++ [executorCompleted runId actions.length durationMs now] := by
    rw [hfs.2.2.1, hfx2.2.2, hap.2.2, hfx0.2.2]
    simp
  have hval : validateRunId runId = .ok () := by
    cases hv : validateRunId runId with
    | error e =>
      rw [parseResponse, hv] at hparse
      cases hparse
    | ok u =>
      cases u
      rfl
  refine ⟨⟨?_, ?_, ?_⟩, ?_⟩
  · rw [hrun]
  · rw [hrun]
    simp [hemit]
  · rw [hrun]
    simp only [hemit]
    intro e he
    rcases List.mem_append.mp he with he | he
    · rcases List.mem_append.mp he with he | he
      · rw [List.mem_singleton.mp he]
        rfl
      · obtain ⟨a, _, rfl⟩ := List.mem_map.mp he
        rfl
    · rw [List.mem_singleton.mp he]
      rfl
  · intro hdisj a ha
    rw [parseResponse, hval] at hparse
    by_cases hd : parseUnifiedDiffs response runId = []
    · have hsr : parseSearchReplace response runId ≠ [] := by
        rcases hdisj with h | h
        · exact absurd hd h
        · exact h
      rw [if_neg (by simp [hd]), if_pos (by simpa using hsr)] at hparse
      cases hparse
      exact mem_parseSearchReplace_prefix response runId a ha
    · rw [if_pos (by simpa using hd)] at hparse
      cases hparse
      exact mem_parseUnifiedDiffs_prefix response runId a ha

theorem c2_run_correlation_witness :
    (executeWithLogging "run-123" "t" "m" 0 false
        (.ok "--- a/src/main.rs\n+++ b/src/main.rs\n@@ -1 +1 @@\n-old\n+new\n") 5 "T"
        ⟨⟨1⟩, [], [], [], 0⟩).1
      = .ok (parseUnifiedDiffs
          "--- a/src/main.rs\n+++ b/src/main.rs\n@@ -1 +1 @@\n-old\n+new\n" "run-123") :=
  (c2_run_correlation "run-123" "t" "m" "T"
    "--- a/src/main.rs\n+++ b/src/main.rs\n@@ -1 +1 @@\n-old\n+new\n" 0 5 ⟨1⟩ []
    (parseUnifiedDiffs
      "--- a/src/main.rs\n+++ b/src/main.rs\n@@ -1 +1 @@\n-old\n+new\n" "run-123")
    (by decide)).1.1

/-- C2 counterexample: a response whose actions come from the JSON-array
path keeps the IDs embedded in the JSON text; here the run is
"run_42" but the returned proposal ID is "x", which does not carry the
run_id prefix. -/
theorem c2_counterexample :
    (executeWithLogging "run_42" "task" "gpt-5.2-codex" 0 false
        (.ok "```json\n[\x7b\"id\":\"x\",\"summary\":\"s\",\"kind\":\"patch\",\"details\":\x7b\x7d\x7d]\n```")
        5 "2026-01-08T12:00:00Z" ⟨⟨1⟩, [], [], [], 0⟩).1
      = .ok [{ id := "x", summary := "s", why := none, risk := 1, policyTags := [],
               requiresApproval := true, createdBy := none, approvalGroup := none,
               kind := .patch, details := .patch PatchDetails.defaults }]
    ∧ ¬ ("run_42".data <+: "x".data) := by
  constructor
  · rfl
  · decide

/-! ### Retry strategy (src/executor/client.rs)

build_retry_strategy composes tokio_retry's ExponentialBackoff with a
jitter map and take(max_retries).  The iterator below is translated from
the tokio_retry crate (src/strategy/exponential_backoff.rs):
from_millis(b) sets both the current value and the exponent base to b;
each step yields current * factor, capped at max_delay (the cap also
leaves the state unchanged), and then multiplies current by the base. -/

structure ExponentialBackoff where
  currentMs : Nat
  baseMs : Nat
  factorVal : Nat
  maxDelayMs : Option Nat
deriving DecidableEq

def backoffFromMillis (base : Nat) : ExponentialBackoff :=
  ⟨base, base, 1, none⟩

def backoffStep (s : ExponentialBackoff) : Nat × ExponentialBackoff :=
  let duration := s.currentMs * s.factorVal
  match s.maxDelayMs with
  | some maxd =>
      if maxd < duration then (maxd, s)
      else (duration, { s with currentMs := s.currentMs * s.baseMs })
  | none => (duration, { s with currentMs := s.currentMs * s.baseMs })

def backoffTake : Nat → ExponentialBackoff → List Nat
  | 0, _ => []
  | n + 1, s =>
      let (d, s2) := backoffStep s
      d :: backoffTake n s2

/-- The pre-jitter delay sequence of build_retry_strategy:
ExponentialBackoff::from_millis(100).factor(2).max_delay(30 s),
truncated to max_retries entries (delays in milliseconds). -/
def buildRetryStrategyPreJitter (maxRetries : Nat) : List Nat :=
  backoffTake maxRetries
    { backoffFromMillis 100 with factorVal := 2, maxDelayMs := some 30000 }

/-- apply_jitter with the sampled value made explicit; the source draws
it uniformly from 0..=duration/2 and adds it. -/
def applyJitter (durationMs draw : Nat) : Nat :=
  if durationMs = 0 then durationMs else durationMs + draw

/-- C7: evaluated at the configured 3 retries, the pre-jitter delays the
code produces are 200 ms, 20 s and 30 s — not the exponential
100/200/400 ms sequence the claim describes: tokio_retry treats
from_millis(100) as the exponent base and factor(2) as a constant
multiplier, so the second delay is 100 * 100 * 2 ms capped thereafter at
30 s.  The count (at most 3) and the cap (30 s) do hold, and jitter adds
the sampled value to a non-zero delay. -/
theorem c7_retry_strategy :
    buildRetryStrategyPreJitter 3 = [200, 20000, 30000]
    ∧ buildRetryStrategyPreJitter 3 ≠ [100, 200, 400]
    ∧ (buildRetryStrategyPreJitter 3).length = 3
    ∧ (buildRetryStrategyPreJitter 3).all (fun d => d ≤ 30000) = true
    ∧ applyJitter 200 100 = 300
    ∧ applyJitter 0 17 = 0 := by
  decide

/-! ### SSE transport framing (src/executor/client.rs)

The byte stream is modelled at character level (UTF-8 re-assembly across
chunk boundaries and the invalid-UTF-8 error path are not modelled); the
serde error text inside StreamInterrupted is replaced by a fixed model
message. -/

structure Delta where
  content : Option String
  role : Option String
deriving DecidableEq

structure ChunkChoice where
  index : Nat
  delta : Delta
  finishReason : Option String
deriving DecidableEq

structure UsageInfo where
  promptTokens : Nat
  completionTokens : Nat
  totalTokens : Nat
deriving DecidableEq

structure ChatChunk where
  id : String
  object : String
  created : Nat
  model : String
  choices : List ChunkChoice
  usage : Option UsageInfo
deriving DecidableEq

def deltaFromJson : Json → Option Delta
  | .obj ms => do
      let c ← optStrField (objGet "content" ms)
      let r ← optStrField (objGet "role" ms)
      pure ⟨c, r⟩
  | _ => none

def choiceFromJson : Json → Option ChunkChoice
  | .obj ms => do
      let i ← (objGet "index" ms).bind asU64
      let d ← (objGet "delta" ms).bind deltaFromJson
      let fr ← optStrField (objGet "finish_reason" ms)
      pure ⟨i, d, fr⟩
  | _ => none

def usageFromJson : Json → Option UsageInfo
  | .obj ms => do
      let p ← (objGet "prompt_tokens" ms).bind asU64
      let c ← (objGet "completion_tokens" ms).bind asU64
      let t ← (objGet "total_tokens" ms).bind asU64
      pure ⟨p, c, t⟩
  | _ => none

def chunkFromJson : Json → Option ChatChunk
  | .obj ms => do
      let id ← reqStrField (objGet "id" ms)
      let ob ← reqStrField (objGet "object" ms)
      let cr ← (objGet "created" ms).bind asU64
      let md ← reqStrField (objGet "model" ms)
      let ch ← (objGet "choices" ms).bind (fun j =>
        match j with
        | .arr xs => (jsonArrToList xs).mapM choiceFromJson
        | _ => none)
      let us ← optSubField usageFromJson (objGet "usage" ms)
      pure ⟨id, ob, cr, md, ch, us⟩
  | _ => none

inductive StreamEvent where
  | chunk (c : ChatChunk)
  | done
  | empty
deriving DecidableEq

def stripTrailingCr (cs : List Char) : List Char :=
  ((cs.reverse).dropWhile (fun c => c = '\r')).reverse

/-- parse_event: collect the data:-prefixed lines (one leading space
stripped), ignore the rest; an empty collection is an un-dispatched
event, the [DONE] payload ends the stream, anything else must be a JSON
chunk. -/
def parseEventM (event : List Char) : Except NexusErr StreamEvent :=
  let dataLines := (rustLinesAux event []).filterMap fun line =>
    let l2 := stripTrailingCr line
    if "data:".data.isPrefixOf l2 then
      let payload := l2.drop 5
      some (match payload with
        | ' ' :: r => r
        | r => r)
    else none
  if dataLines.isEmpty then .ok .empty
  else
    let data := List.intercalate ['\n'] dataLines
    if data = "[DONE]".data then .ok .done
    else
      match (jsonParse (String.mk data)).bind chunkFromJson with
      | some c => .ok (.chunk c)
      | none => .error (.streamInterrupted "failed to parse stream chunk")

/-- find_delimiter: leftmost index of the \n\n event delimiter. -/
def findDelim : List Char → Option Nat
  | [] => none
  | [_] => none
  | a :: b :: rest =>
      if a = '\n' ∧ b = '\n' then some 0
      else (findDelim (b :: rest)).map (· + 1)

/-- parse_sse_events: repeatedly split one complete event off the front
of the buffer; empty and data-less events are skipped, chunks are queued
in order, [DONE] stops with the done flag, a bad event stops with its
error.  The final buffer holds the unconsumed bytes. -/
def parseSseEvents : Nat → List Char →
    List Char × List ChatChunk × Option NexusErr × Bool
  | 0, buffer => (buffer, [], none, false)
  | fuel + 1, buffer =>
      match findDelim buffer with
      | none => (buffer, [], none, false)
      | some i =>
          let eventBytes := buffer.take i
          let buffer2 := buffer.drop (i + 2)
          if eventBytes.isEmpty then parseSseEvents fuel buffer2
          else
            match parseEventM eventBytes with
            | .ok .empty => parseSseEvents fuel buffer2
            | .ok (.chunk c) =>
                let r := parseSseEvents fuel buffer2
                (r.1, c :: r.2.1, r.2.2.1, r.2.2.2)
            | .ok .done => (buffer2, [], none, true)
            | .error e => (buffer2, [], some e, false)

/-- The chat_completion_stream driver (the unfold loop with its pending
queue flattened into the output list): each incoming chunk is appended
to the buffer and parsed; a parse error is yielded before the chunks
already queued from the same read, the done flag stops reading, and a
non-empty buffer at the end of the byte stream is a StreamInterrupted
error. -/
def sseRun : List Char → List String → List (Except NexusErr ChatChunk)
  | buffer, [] =>
      if buffer.isEmpty then []
      else [.error (.streamInterrupted "stream closed with incomplete event")]
  | buffer, b :: bs =>
      match parseSseEvents ((buffer ++ b.data).length + 1) (buffer ++ b.data) with
      | (_, chunks, some e, _) => .error e :: chunks.map .ok
      | (_, chunks, none, true) => chunks.map .ok
      | (buf2, chunks, none, false) => chunks.map .ok ++ sseRun buf2 bs

/-! Refinement target, following the specification text: split the whole
delivered byte sequence on \n\n, process the complete events in order
(data lines joined, non-data lines ignored, [DONE] terminates, other
payloads are JSON chunks), and report a partially-buffered event at end
of stream as StreamInterrupted. -/

def splitAllAux : Nat → List Char → List (List Char) × List Char
  | 0, cs => ([], cs)
  | fuel + 1, cs =>
      match findDelim cs with
      | none => ([], cs)
      | some i =>
          let r := splitAllAux fuel (cs.drop (i + 2))
          (cs.take i :: r.1, r.2)

def splitAll (cs : List Char) : List (List Char) × List Char :=
  splitAllAux (cs.length + 1) cs

def processEvents : List (List Char) → List Char → List (Except NexusErr ChatChunk)
  | [], rest =>
      if rest.isEmpty then []
      else [.error (.streamInterrupted "stream closed with incomplete event")]
  | e :: es, rest =>
      match parseEventM e with
      | .ok .empty => processEvents es rest
      | .ok .done => []
      | .ok (.chunk c) => .ok c :: processEvents es rest
      | .error er => [.error er]

/-- The specification-level description of the SSE parse of a complete
byte sequence. -/
def sseSpec (text : List Char) : List (Except NexusErr ChatChunk) :=
  processEvents (splitAll text).1 (splitAll text).2

def goodEvent (e : List Char) : Bool :=
  match parseEventM e with
  | .error _ => false
  | .ok _ => true

/-- Chunks produced by an event list up to the first [DONE], and whether
a [DONE] was hit (helper for relating the incremental parse to the
specification-level one; meaningful on error-free event lists). -/
def chunksUntilDone : List (List Char) → List ChatChunk × Bool
  | [] => ([], false)
  | e :: es =>
      match parseEventM e with
      | .ok (.chunk c) =>
          let r := chunksUntilDone es
          (c :: r.1, r.2)
      | .ok .done => ([], true)
      | _ => chunksUntilDone es

theorem findDelim_bound : ∀ (cs : List Char) (i : Nat), findDelim cs = some i → i + 2 ≤ cs.length := by
  intro cs
  induction cs with
  | nil => intro i h; simp [findDelim] at h
  | cons a t ih =>
    intro i h
    cases t with
    | nil => simp [findDelim] at h
    | cons b rest =>
      rw [findDelim] at h
      by_cases hnl : a = '\n' ∧ b = '\n'
      · rw [if_pos hnl] at h
        cases h
        simp
      · rw [if_neg hnl] at h
        cases hfd : findDelim (b :: rest) with
        | none => rw [hfd] at h; simp at h
        | some j =>
            rw [hfd] at h
            simp at h
            subst h
            have h2 := ih j hfd
            simp only [List.length_cons] at h2 ⊢
            omega

theorem findDelim_append : ∀ (x y : List Char) (i : Nat),
    findDelim x = some i → findDelim (x ++ y) = some i := by
  intro x
  induction x with
  | nil => intro y i h; simp [findDelim] at h
  | cons a t ih =>
    intro y i h
    cases t with
    | nil => simp [findDelim] at h
    | cons b rest =>
      rw [findDelim] at h
      rw [List.cons_append, List.cons_append, findDelim]
      by_cases hnl : a = '\n' ∧ b = '\n'
      · rw [if_pos hnl] at h
        rw [if_pos hnl]
        exact h
      · rw [if_neg hnl] at h
        rw [if_neg hnl]
        cases hfd : findDelim (b :: rest) with
        | none => rw [hfd] at h; simp at h
        | some j =>
            rw [hfd] at h
            have := ih y j hfd
            rw [List.cons_append] at this
            rw [this]
            simpa using h

theorem splitAllAux_congr : ∀ (n f g : Nat) (cs : List Char), cs.length ≤ n →
    cs.length < f → cs.length < g → splitAllAux f cs = splitAllAux g cs := by
  intro n
  induction n with
  | zero =>
    intro f g cs hn hf hg
    obtain ⟨f₁, rfl⟩ : ∃ f₁, f = f₁ + 1 := ⟨f - 1, by omega⟩
    obtain ⟨g₁, rfl⟩ : ∃ g₁, g = g₁ + 1 := ⟨g - 1, by omega⟩
    have : cs = [] := List.length_eq_zero.mp (by omega)
    subst this
    rfl
  | succ m ih =>
    intro f g cs hn hf hg
    obtain ⟨f₁, rfl⟩ : ∃ f₁, f = f₁ + 1 := ⟨f - 1, by omega⟩
    obtain ⟨g₁, rfl⟩ : ∃ g₁, g = g₁ + 1 := ⟨g - 1, by omega⟩
    rw [splitAllAux, splitAllAux]
    cases hfd : findDelim cs with
    | none => rfl
    | some i =>
        have hb := findDelim_bound cs i hfd
        have hlen : (cs.drop (i + 2)).length = cs.length - (i + 2) := by
          simp
        have h2 : splitAllAux f₁ (cs.drop (i + 2)) = splitAllAux g₁ (cs.drop (i + 2)) := by
          apply ih <;> omega
        simp [h2]

theorem splitAll_none {cs : List Char} (h : findDelim cs = none) :
    splitAll cs = ([], cs) := by
  rw [splitAll, splitAllAux, h]

theorem splitAll_step {cs : List Char} {i : Nat} (h : findDelim cs = some i) :
    splitAll cs = (cs.take i :: (splitAll (cs.drop (i + 2))).1,
      (splitAll (cs.drop (i + 2))).2) := by
  have hb := findDelim_bound cs i h
  have hcongr : splitAllAux cs.length (cs.drop (i + 2)) = splitAll (cs.drop (i + 2)) := by
    rw [splitAll]
    apply splitAllAux_congr (cs.drop (i + 2)).length
    · exact Nat.le_refl _
    · simp
      omega
    · omega
  rw [splitAll, splitAllAux, h]
  simp [hcongr]

theorem splitAll_append : ∀ (x y : List Char),
    splitAll (x ++ y) = ((splitAll x).1 ++ (splitAll ((splitAll x).2 ++ y)).1,
      (splitAll ((splitAll x).2 ++ y)).2) := by
  intro x y
  cases hfd : findDelim x with
  | none =>
      rw [splitAll_none hfd]
      simp
  | some i =>
      have hb := findDelim_bound x i hfd
      have hfd2 := findDelim_append x y i hfd
      rw [splitAll_step hfd2, splitAll_step hfd]
      rw [List.take_append_of_le_length (by omega), List.drop_append_of_le_length (by omega)]
      rw [splitAll_append (x.drop (i + 2)) y]
      simp
termination_by x => x.length
decreasing_by
  simp
  omega

theorem findDelim_splitAll_rest : ∀ (cs : List Char), findDelim (splitAll cs).2 = none := by
  intro cs
  cases hfd : findDelim cs with
  | none => rw [splitAll_none hfd]; exact hfd
  | some i =>
      have hb := findDelim_bound cs i hfd
      rw [splitAll_step hfd]
      exact findDelim_splitAll_rest (cs.drop (i + 2))
termination_by cs => cs.length
decreasing_by
  simp
  omega

theorem parseSse_spec (fuel : Nat) (buffer : List Char) (hf : buffer.length < fuel)
    (hg : ∀ e ∈ (splitAll buffer).1, goodEvent e = true) :
    (parseSseEvents fuel buffer).2.1 = (chunksUntilDone (splitAll buffer).1).1 ∧
    (parseSseEvents fuel buffer).2.2.1 = none ∧
    (parseSseEvents fuel buffer).2.2.2 = (chunksUntilDone (splitAll buffer).1).2 ∧
    ((chunksUntilDone (splitAll buffer).1).2 = false →
      (parseSseEvents fuel buffer).1 = (splitAll buffer).2) := by
  obtain ⟨f, rfl⟩ : ∃ f, fuel = f + 1 := ⟨fuel - 1, by omega⟩
  cases hfd : findDelim buffer with
  | none =>
      rw [splitAll_none hfd]
      simp [parseSseEvents, hfd, chunksUntilDone]
  | some i =>
      have hb := findDelim_bound buffer i hfd
      have hrest : (buffer.drop (i + 2)).length < buffer.length := by
        simp
        omega
      have hfrest : (buffer.drop (i + 2)).length < f := by
        simp
        omega
      rw [splitAll_step hfd] at hg ⊢
      have hge : goodEvent (buffer.take i) = true := hg _ (List.mem_cons_self _ _)
      have hgrest : ∀ e ∈ (splitAll (buffer.drop (i + 2))).1, goodEvent e = true :=
        fun e he => hg e (List.mem_cons_of_mem _ he)
      have IH := parseSse_spec f (buffer.drop (i + 2)) hfrest hgrest
      cases hE : (buffer.take i).isEmpty with
      | true =>
          have hnil : buffer.take i = [] := by
            cases h' : buffer.take i with
            | nil => rfl
            | cons a t => rw [h'] at hE; simp [List.isEmpty] at hE
          have hpe : parseEventM (buffer.take i) = .ok .empty := by
            rw [hnil]
            rfl
          simp only [parseSseEvents, hfd, hE, if_true, chunksUntilDone, hpe]
          exact IH
      | false =>
          cases hpe : parseEventM (buffer.take i) with
          | error e =>
              exfalso
              rw [goodEvent, hpe] at hge
              simp at hge
          | ok ev =>
              cases ev with
              | empty =>
                  simp only [parseSseEvents, hfd, hE, Bool.false_eq_true, if_false,
                    chunksUntilDone, hpe]
                  exact IH
              | chunk c =>
                  simp only [parseSseEvents, hfd, hE, Bool.false_eq_true, if_false,
                    chunksUntilDone, hpe]
                  exact ⟨by rw [IH.1], IH.2.1, IH.2.2.1, IH.2.2.2⟩
              | done =>
                  simp only [parseSseEvents, hfd, hE, Bool.false_eq_true, if_false,
                    chunksUntilDone, hpe]
                  refine ⟨by simp, by simp, by simp, ?_⟩
                  intro h
                  simp at h
termination_by buffer.length

theorem processEvents_append_done (es es' : List (List Char)) (r : List Char)
    (hg : ∀ e ∈ es, goodEvent e = true) (hd : (chunksUntilDone es).2 = true) :
    processEvents (es ++ es') r = ((chunksUntilDone es).1).map .ok := by
  induction es with
  | nil => simp [chunksUntilDone] at hd
  | cons e t ih =>
      have hge : goodEvent e = true := hg _ (List.mem_cons_self _ _)
      have hgt : ∀ x ∈ t, goodEvent x = true := fun x hx => hg x (List.mem_cons_of_mem _ hx)
      cases hpe : parseEventM e with
      | error er =>
          exfalso
          rw [goodEvent, hpe] at hge
          simp at hge
      | ok ev =>
          cases ev with
          | empty =>
              rw [chunksUntilDone, hpe] at hd ⊢
              rw [List.cons_append, processEvents, hpe]
              exact ih hgt hd
          | chunk c =>
              rw [chunksUntilDone, hpe] at hd ⊢
              rw [List.cons_append, processEvents, hpe]
              simp only [List.map_cons]
              rw [ih hgt (by simpa using hd)]
          | done =>
              rw [List.cons_append, processEvents, hpe]
              rw [chunksUntilDone, hpe]
              simp

theorem processEvents_append_nodone (es es' : List (List Char)) (r : List Char)
    (hg : ∀ e ∈ es, goodEvent e = true) (hd : (chunksUntilDone es).2 = false) :
    processEvents (es ++ es') r =
      ((chunksUntilDone es).1).map .ok ++ processEvents es' r := by
  induction es with
  | nil => simp [chunksUntilDone]
  | cons e t ih =>
      have hge : goodEvent e = true := hg _ (List.mem_cons_self _ _)
      have hgt : ∀ x ∈ t, goodEvent x = true := fun x hx => hg x (List.mem_cons_of_mem _ hx)
      cases hpe : parseEventM e with
      | error er =>
          exfalso
          rw [goodEvent, hpe] at hge
          simp at hge
      | ok ev =>
          cases ev with
          | empty =>
              rw [chunksUntilDone, hpe] at hd ⊢
              rw [List.cons_append, processEvents, hpe]
              exact ih hgt hd
          | chunk c =>
              rw [chunksUntilDone, hpe] at hd ⊢
              rw [List.cons_append, processEvents, hpe]
              simp only [List.map_cons, List.cons_append]
              rw [ih hgt (by simpa using hd)]
          | done =>
              rw [chunksUntilDone, hpe] at hd
              simp at hd

theorem sseRun_refines : ∀ (bs : List String) (buffer : List Char),
    findDelim buffer = none →
    (∀ e ∈ (splitAll (buffer ++ (bs.map String.data).flatten)).1, goodEvent e = true) →
    sseRun buffer bs =
      processEvents (splitAll (buffer ++ (bs.map String.data).flatten)).1
        (splitAll (buffer ++ (bs.map String.data).flatten)).2 := by
  intro bs
  induction bs with
  | nil =>
      intro buffer hbuf hg
      simp only [List.map_nil, List.flatten_nil, List.append_nil] at hg ⊢
      rw [splitAll_none hbuf]
      rw [sseRun, processEvents]
  | cons b tl ih =>
      intro buffer hbuf hg
      have hassoc : buffer ++ ((b :: tl).map String.data).flatten
          = (buffer ++ b.data) ++ (tl.map String.data).flatten := by
        simp [List.append_assoc]
      rw [hassoc] at hg ⊢
      have hsplit := splitAll_append (buffer ++ b.data) ((tl.map String.data).flatten)
      rw [hsplit] at hg ⊢
      dsimp only at hg ⊢
      have hgB : ∀ e ∈ (splitAll (buffer ++ b.data)).1, goodEvent e = true :=
        fun e he => hg e (List.mem_append_left _ he)
      have hg2 : ∀ e ∈ (splitAll ((splitAll (buffer ++ b.data)).2 ++
          (tl.map String.data).flatten)).1, goodEvent e = true :=
        fun e he => hg e (List.mem_append_right _ he)
      have hPS := parseSse_spec ((buffer ++ b.data).length + 1) (buffer ++ b.data)
        (by omega) hgB
      rcases hP : parseSseEvents ((buffer ++ b.data).length + 1) (buffer ++ b.data) with
        ⟨buf2, cks, err, dn⟩
      rw [hP] at hPS
      dsimp only at hPS
      obtain ⟨h1, h2, h3, h4⟩ := hPS
      subst h2
      subst h1
      cases hcu : (chunksUntilDone (splitAll (buffer ++ b.data)).1).2 with
      | true =>
          rw [hcu] at h3
          subst h3
          rw [sseRun, hP]
          dsimp only
          rw [processEvents_append_done _ _ _ hgB hcu]
      | false =>
          rw [hcu] at h3
          subst h3
          have hbuf2 : buf2 = (splitAll (buffer ++ b.data)).2 := h4 hcu
          subst hbuf2
          rw [sseRun, hP]
          dsimp only
          rw [processEvents_append_nodone _ _ _ hgB hcu]
          rw [ih _ (findDelim_splitAll_rest _) hg2]

/-- C6: for every byte stream delivered to the SSE parser (modelled as the
list of delivered chunks, in which every complete event is well-formed),
the incremental buffering parser produces exactly the specification-level
result on the concatenated bytes: events are split on the \n\n delimiter
regardless of chunk boundaries, each event's payload is its data:-prefixed
lines joined by \n with one leading space after the colon stripped,
non-data lines are ignored, a payload of exactly [DONE] terminates the
chunk stream, any other payload is parsed as a JSON chunk, and a partial
event still buffered at end of stream yields a StreamInterrupted error. -/
theorem c6_sse_framing (chunks : List String)
    (h : ((splitAll ((chunks.map String.data).flatten)).1.all goodEvent) = true) :
    sseRun [] chunks = sseSpec ((chunks.map String.data).flatten) := by
  have hg : ∀ e ∈ (splitAll (([] : List Char) ++ (chunks.map String.data).flatten)).1,
      goodEvent e = true := by
    intro e he
    rw [List.nil_append] at he
    exact List.all_eq_true.mp h e he
  rw [sseRun_refines chunks [] rfl hg, sseSpec, List.nil_append]

/-- Witness for C6: a stream whose first chunk ends mid-JSON, completed by
the second chunk which also carries the [DONE] event and an incomplete
trailing event. -/
theorem c6_sse_framing_witness :
    (((splitAll ((([("data: \x7b\"id\":\"a\",\"object\":\"chat.completion.chunk\","
        ++ "\"created\":1,\"mo"),
      "del\":\"m\",\"choices\":[]\x7d\n\ndata: [DONE]\n\n"] : List String).map
        String.data).flatten)).1.all goodEvent) = true) ∧
    sseRun [] [("data: \x7b\"id\":\"a\",\"object\":\"chat.completion.chunk\","
        ++ "\"created\":1,\"mo"),
      "del\":\"m\",\"choices\":[]\x7d\n\ndata: [DONE]\n\n"] =
    sseSpec ((([("data: \x7b\"id\":\"a\",\"object\":\"chat.completion.chunk\","
        ++ "\"created\":1,\"mo"),
      "del\":\"m\",\"choices\":[]\x7d\n\ndata: [DONE]\n\n"] : List String).map
        String.data).flatten) :=
  ⟨by decide, c6_sse_framing _ (by decide)⟩

end NexusModel
